import Mathlib

deriving instance DecidableEq for Except

/-!
Shallow embedding of the btrfs-backup repository (stream codec, concat
engine, repository loader and fsck) over byte lists, together with proofs
checking the natural-language specification against it.

Bytes are modelled as natural numbers (real byte strings have entries
below 256); readers are modelled as the list of bytes not yet consumed,
and every read returns the value together with the remaining bytes.
Fallible code returns Option or Except; a Rust panic (a failed assert,
an unwrap of an error, or an explicit fail macro) is modelled as a
distinguished failure value, named panicked below.
-/

namespace BtrfsBackup

/-! ## Little-endian byte primitives (std reader and writer helpers) -/

/-- Little-endian decoding of a byte list, least significant byte first. -/
def decodeLE : List Nat → Nat
  | [] => 0
  | b :: rest => b + 256 * decodeLE rest

/-- Little-endian encoding of a 16-bit value, as written by write_le_u16. -/
def leU16 (n : Nat) : List Nat := [n % 256, n / 256 % 256]

/-- Little-endian encoding of a 32-bit value, as written by write_le_u32. -/
def leU32 (n : Nat) : List Nat :=
  [n % 256, n / 256 % 256, n / 65536 % 256, n / 16777216 % 256]

/-- Little-endian encoding of a 64-bit value, as written by write_le_u64. -/
def leU64 (n : Nat) : List Nat :=
  [n % 256, n / 2 ^ 8 % 256, n / 2 ^ 16 % 256, n / 2 ^ 24 % 256,
   n / 2 ^ 32 % 256, n / 2 ^ 40 % 256, n / 2 ^ 48 % 256, n / 2 ^ 56 % 256]

/-- Reader helper: read exactly n bytes (read_exact / read_at_least with
the full buffer); fails, with error kind end-of-file, when fewer remain. -/
def readExact (n : Nat) (input : List Nat) : Option (List Nat × List Nat) :=
  if n ≤ input.length then some (input.take n, input.drop n) else none

/-- Reader helper: read_le_u16. -/
def readLeU16 (input : List Nat) : Option (Nat × List Nat) :=
  (readExact 2 input).map (fun p => (decodeLE p.1, p.2))

/-- Reader helper: read_le_u32. -/
def readLeU32 (input : List Nat) : Option (Nat × List Nat) :=
  (readExact 4 input).map (fun p => (decodeLE p.1, p.2))

/-- Reader helper: read_le_u64. -/
def readLeU64 (input : List Nat) : Option (Nat × List Nat) :=
  (readExact 8 input).map (fun p => (decodeLE p.1, p.2))

/-! ## CRC32C primitive -/

/-- Modelled from the spec: the crc32 module (crc32.rs, function crc32c) is
declared and used by btrfs.rs but its source file is not in the tree.
Spec section 4.1: Castagnoli polynomial 0x1EDC6F41 in little-endian
(reflected) bit order, whose reflected representation is 0x82F63B78;
one bit step of the reflected algorithm. -/
def crc32cStepBit (st : Nat) : Nat :=
  if st % 2 = 1 then (st >>> 1) ^^^ 0x82F63B78 else st >>> 1

/-- Modelled from the spec: one byte step of the reflected CRC32C. -/
def crc32cStepByte (st b : Nat) : Nat :=
  crc32cStepBit^[8] (st ^^^ b % 256)

/-- Modelled from the spec and the sample stream of btrfs.rs: crc32c
maps a seed state and a byte slice to a new state, so that a CRC can be
computed incrementally across several slices (spec section 4.1). The
seed is chained directly with no entry or exit xor: the stored CRC of
the sample SUBVOL frame embedded in btrfs.rs, which the in-tree test
asserts equal to calculate_crc32, pins the init value and the final xor
of the missing implementation to zero (the btrfs send convention),
overriding the 0xFFFFFFFF mentioned in the spec text. -/
def crc32c (seed : Nat) (data : List Nat) : Nat :=
  data.foldl crc32cStepByte (seed % 2 ^ 32)

/-! ## Error taxonomy (btrfs.rs) -/

/-- Kind of an io error; in the byte-list model every failed read is an
end-of-file. -/
inductive IoErrorKind where
  | EndOfFile
  | OtherIoError
deriving DecidableEq, Repr

/-- BtrfsParseError from btrfs.rs. -/
inductive BtrfsParseError where
  | InvalidVersion
  | ProtocolError (reason : String)
  | ReadError (kind : IoErrorKind)
deriving DecidableEq, Repr

/-- BtrfsParseError::is_eof. -/
def BtrfsParseError.is_eof : BtrfsParseError → Bool
  | .ReadError k => k = .EndOfFile
  | _ => false

/-- Result of an operation that can succeed, return an error value, or
panic (fail!, assert!, or unwrap of an error). -/
inductive ParseOut (α : Type) where
  | ok (val : α)
  | err (e : BtrfsParseError)
  | panicked
deriving DecidableEq, Repr

/-! ## Command kinds (BtrfsCommandType, btrfs.rs) -/

/-- The 23 defined command kinds, discriminants 0 through 22 in
declaration order. -/
inductive BtrfsCommandType where
  | BTRFS_SEND_C_UNSPEC
  | BTRFS_SEND_C_SUBVOL
  | BTRFS_SEND_C_SNAPSHOT
  | BTRFS_SEND_C_MKFILE
  | BTRFS_SEND_C_MKDIR
  | BTRFS_SEND_C_MKNOD
  | BTRFS_SEND_C_MKFIFO
  | BTRFS_SEND_C_MKSOCK
  | BTRFS_SEND_C_SYMLINK
  | BTRFS_SEND_C_RENAME
  | BTRFS_SEND_C_LINK
  | BTRFS_SEND_C_UNLINK
  | BTRFS_SEND_C_RMDIR
  | BTRFS_SEND_C_SET_XATTR
  | BTRFS_SEND_C_REMOVE_XATTR
  | BTRFS_SEND_C_WRITE
  | BTRFS_SEND_C_CLONE
  | BTRFS_SEND_C_TRUNCATE
  | BTRFS_SEND_C_CHMOD
  | BTRFS_SEND_C_CHOWN
  | BTRFS_SEND_C_UTIMES
  | BTRFS_SEND_C_END
  | BTRFS_SEND_C_UPDATE_EXTENT
deriving DecidableEq, Repr

/-- The discriminant of a command kind (kind as u16). -/
def btrfsCommandTypeToU16 : BtrfsCommandType → Nat
  | .BTRFS_SEND_C_UNSPEC => 0
  | .BTRFS_SEND_C_SUBVOL => 1
  | .BTRFS_SEND_C_SNAPSHOT => 2
  | .BTRFS_SEND_C_MKFILE => 3
  | .BTRFS_SEND_C_MKDIR => 4
  | .BTRFS_SEND_C_MKNOD => 5
  | .BTRFS_SEND_C_MKFIFO => 6
  | .BTRFS_SEND_C_MKSOCK => 7
  | .BTRFS_SEND_C_SYMLINK => 8
  | .BTRFS_SEND_C_RENAME => 9
  | .BTRFS_SEND_C_LINK => 10
  | .BTRFS_SEND_C_UNLINK => 11
  | .BTRFS_SEND_C_RMDIR => 12
  | .BTRFS_SEND_C_SET_XATTR => 13
  | .BTRFS_SEND_C_REMOVE_XATTR => 14
  | .BTRFS_SEND_C_WRITE => 15
  | .BTRFS_SEND_C_CLONE => 16
  | .BTRFS_SEND_C_TRUNCATE => 17
  | .BTRFS_SEND_C_CHMOD => 18
  | .BTRFS_SEND_C_CHOWN => 19
  | .BTRFS_SEND_C_UTIMES => 20
  | .BTRFS_SEND_C_END => 21
  | .BTRFS_SEND_C_UPDATE_EXTENT => 22

/-- FromPrimitive::from_u16 for BtrfsCommandType. -/
def btrfsCommandTypeFromU16 : Nat → Option BtrfsCommandType
  | 0 => some .BTRFS_SEND_C_UNSPEC
  | 1 => some .BTRFS_SEND_C_SUBVOL
  | 2 => some .BTRFS_SEND_C_SNAPSHOT
  | 3 => some .BTRFS_SEND_C_MKFILE
  | 4 => some .BTRFS_SEND_C_MKDIR
  | 5 => some .BTRFS_SEND_C_MKNOD
  | 6 => some .BTRFS_SEND_C_MKFIFO
  | 7 => some .BTRFS_SEND_C_MKSOCK
  | 8 => some .BTRFS_SEND_C_SYMLINK
  | 9 => some .BTRFS_SEND_C_RENAME
  | 10 => some .BTRFS_SEND_C_LINK
  | 11 => some .BTRFS_SEND_C_UNLINK
  | 12 => some .BTRFS_SEND_C_RMDIR
  | 13 => some .BTRFS_SEND_C_SET_XATTR
  | 14 => some .BTRFS_SEND_C_REMOVE_XATTR
  | 15 => some .BTRFS_SEND_C_WRITE
  | 16 => some .BTRFS_SEND_C_CLONE
  | 17 => some .BTRFS_SEND_C_TRUNCATE
  | 18 => some .BTRFS_SEND_C_CHMOD
  | 19 => some .BTRFS_SEND_C_CHOWN
  | 20 => some .BTRFS_SEND_C_UTIMES
  | 21 => some .BTRFS_SEND_C_END
  | 22 => some .BTRFS_SEND_C_UPDATE_EXTENT
  | _ => none

/-! ## Raw command buffer (BtrfsCommandBuf, btrfs.rs) -/

/-- A raw command buffer: the contiguous 10-byte on-wire header followed
by the payload, exactly as on the wire. -/
structure BtrfsCommandBuf where
  buf : List Nat
deriving DecidableEq, Repr

/-- BtrfsCommandBuf::get_kind, decoding the u16 at offset 4. -/
def BtrfsCommandBuf.get_kind (self : BtrfsCommandBuf) : Option BtrfsCommandType :=
  btrfsCommandTypeFromU16 (decodeLE ((self.buf.drop 4).take 2))

/-- BtrfsCommandBuf::get_crc32, the u32 at offset 6. -/
def BtrfsCommandBuf.get_crc32 (self : BtrfsCommandBuf) : Nat :=
  decodeLE ((self.buf.drop 6).take 4)

/-- BtrfsCommandBuf::calculate_crc32: CRC32C over bytes [0,6), four zero
bytes, then bytes [10,end), computed incrementally. -/
def BtrfsCommandBuf.calculate_crc32 (self : BtrfsCommandBuf) : Nat :=
  crc32c (crc32c (crc32c 0 (self.buf.take 6)) [0, 0, 0, 0]) (self.buf.drop 10)

/-- BtrfsCommandBuf::validate_crc32. -/
def BtrfsCommandBuf.validate_crc32 (self : BtrfsCommandBuf) : Bool :=
  self.calculate_crc32 == self.get_crc32

/-- Modelled from the spec: BtrfsCommandBuf::get_data is called by
btrfs_concat.rs but is not among the methods in btrfs.rs; per spec
section 4.2 the raw buffer is the 10-byte header plus payload, so the
payload is everything from offset 10. -/
def BtrfsCommandBuf.get_data (self : BtrfsCommandBuf) : List Nat :=
  self.buf.drop 10

/-- Modelled from the spec: BtrfsCommandBuf::as_slice is called by the
concat writer but is not among the methods in btrfs.rs; it exposes the
raw on-wire bytes of the frame. -/
def BtrfsCommandBuf.as_slice (self : BtrfsCommandBuf) : List Nat :=
  self.buf

/-- BtrfsCommandBuf::read: read the u32 length L, then exactly 2+4+L more
bytes, preserving the length bytes at offset 0. -/
def BtrfsCommandBuf.read (input : List Nat) : Option (BtrfsCommandBuf × List Nat) :=
  match readLeU32 input with
  | none => none
  | some (len, rest) =>
    match readExact (2 + 4 + len) rest with
    | none => none
    | some (body, rest2) => some (⟨leU32 len ++ body⟩, rest2)

/-! ## Typed command (BtrfsCommand, btrfs.rs) -/

/-- A typed command: length, kind, crc32 field and payload bytes. -/
structure BtrfsCommand where
  len : Nat
  kind : BtrfsCommandType
  crc32 : Nat
  data : List Nat
deriving DecidableEq, Repr

/-- The value of the canonical CRC of a typed command: CRC32C over the
10-byte header with the CRC field zeroed, followed by the payload. -/
def BtrfsCommand.calcCrcVal (self : BtrfsCommand) : Nat :=
  crc32c 0 (leU32 self.len ++ leU16 (btrfsCommandTypeToU16 self.kind) ++
    [0, 0, 0, 0] ++ self.data)

/-- BtrfsCommand::calculate_crc32; none models the panic of its assert
that the payload length equals the len field. -/
def BtrfsCommand.calculate_crc32 (self : BtrfsCommand) : Option Nat :=
  if self.data.length = self.len then some self.calcCrcVal else none

/-- BtrfsCommand::validate_crc32 (the diagnostic print is ignored). -/
def BtrfsCommand.validate_crc32 (self : BtrfsCommand) : Option Bool :=
  self.calculate_crc32.map (· == self.crc32)

/-- BtrfsCommand::from_kind: build a command from a kind and payload,
computing its CRC; the len field is the payload length as u32. -/
def BtrfsCommand.from_kind (kind : BtrfsCommandType) (data : List Nat) :
    Option BtrfsCommand :=
  let out : BtrfsCommand :=
    { len := data.length % 2 ^ 32, kind := kind, crc32 := 0, data := data }
  out.calculate_crc32.map (fun crc => { out with crc32 := crc })

/-- BtrfsCommand::parse: read len, kind, crc32 and len payload bytes; a
read failure is a ReadError, and an unrecognized kind is an unwrap panic. -/
def BtrfsCommand.parse (input : List Nat) : ParseOut (BtrfsCommand × List Nat) :=
  match readLeU32 input with
  | none => .err (.ReadError .EndOfFile)
  | some (len, r1) =>
    match readLeU16 r1 with
    | none => .err (.ReadError .EndOfFile)
    | some (command, r2) =>
      match readLeU32 r2 with
      | none => .err (.ReadError .EndOfFile)
      | some (crc32, r3) =>
        match readExact len r3 with
        | none => .err (.ReadError .EndOfFile)
        | some (buf, r4) =>
          match btrfsCommandTypeFromU16 command with
          | none => .panicked
          | some kind => .ok ({ len := len, kind := kind, crc32 := crc32, data := buf }, r4)

/-- BtrfsCommand::serialize: recompute the CRC on a clone and emit the
10-byte header followed by the payload; none models the panic of the
length assert inside calculate_crc32. -/
def BtrfsCommand.serialize (self : BtrfsCommand) : Option (List Nat) :=
  self.calculate_crc32.map (fun crc =>
    leU32 self.len ++ leU16 (btrfsCommandTypeToU16 self.kind) ++ leU32 crc ++ self.data)

/-- BtrfsCommandBuf::parse delegates to BtrfsCommand::parse over the
buffered bytes (the remainder is dropped by the source as well). -/
def BtrfsCommandBuf.parse (self : BtrfsCommandBuf) : ParseOut (BtrfsCommand × List Nat) :=
  BtrfsCommand.parse self.buf

/-! ## Header (BtrfsHeader, btrfs.rs) -/

/-- The 13 magic bytes of the stream header. -/
def BTRFS_HEADER_MAGIC : List Nat :=
  [98, 116, 114, 102, 115, 45, 115, 116, 114, 101, 97, 109, 0]

/-- The stream header carries only the version. -/
structure BtrfsHeader where
  version : Nat
deriving DecidableEq, Repr

/-- BtrfsHeader::parse: read 13 magic bytes, check equality, then read a
u32 little-endian version. The version value is not checked here. -/
def BtrfsHeader.parse (input : List Nat) :
    Except BtrfsParseError (BtrfsHeader × List Nat) :=
  match readExact 13 input with
  | none => .error (.ReadError .EndOfFile)
  | some (magic, rest) =>
    if magic ≠ BTRFS_HEADER_MAGIC then .error (.ProtocolError "Invalid magic")
    else
      match readLeU32 rest with
      | none => .error (.ReadError .EndOfFile)
      | some (version, rest2) => .ok ({ version := version }, rest2)

/-- BtrfsHeader::serialize: the 13 magic bytes followed by the version. -/
def BtrfsHeader.serialize (self : BtrfsHeader) : List Nat :=
  BTRFS_HEADER_MAGIC ++ leU32 self.version

/-! ## UUIDs and TLV entries -/

/-- A UUID value, carrying its byte representation (16 bytes for every
UUID accepted by Uuid::from_bytes). -/
structure Uuid where
  bytes : List Nat
deriving DecidableEq, Repr

/-- Uuid::from_bytes: accepts exactly 16 bytes. -/
def Uuid.from_bytes (data : List Nat) : Option Uuid :=
  if data.length = 16 then some ⟨data⟩ else none

/-- A TLV entry: a 16-bit type tag and its value bytes. -/
structure BtrfsTlvType where
  type_num : Nat
  data : List Nat
deriving DecidableEq, Repr

/-- tlv_read: 16-bit type, 16-bit length, then that many value bytes. -/
def tlv_read (input : List Nat) : Option (BtrfsTlvType × List Nat) :=
  match readLeU16 input with
  | none => none
  | some (tlv_type, r1) =>
    match readLeU16 r1 with
    | none => none
    | some (tlv_len, r2) =>
      match readExact tlv_len r2 with
      | none => none
      | some (data, r3) => some (⟨tlv_type, data⟩, r3)

/-- tlv_push: write the 16-bit type, the 16-bit byte length of the value
(truncated to u16 as in the source), then the value bytes. -/
def tlv_push (tlv_type : Nat) (buf : List Nat) : List Nat :=
  leU16 tlv_type ++ leU16 buf.length ++ buf

/-! ## Typed payloads (BtrfsSubvol and BtrfsSnapshot, btrfs.rs) -/

/-- A full-subvolume payload. -/
structure BtrfsSubvol where
  name : List Nat
  uuid : Uuid
  ctransid : Nat
deriving DecidableEq, Repr

/-- BtrfsSubvol::parse: TLVs in the fixed order (15, name), (1, uuid of
16 bytes), (2, ctransid as le u64); any other tag is a ProtocolError and
a read failure is a ReadError. Trailing bytes are left unread. -/
def BtrfsSubvol.parse (input : List Nat) : Except BtrfsParseError BtrfsSubvol :=
  match tlv_read input with
  | none => .error (.ReadError .EndOfFile)
  | some (t1, r1) =>
    if t1.type_num = 15 then
      match tlv_read r1 with
      | none => .error (.ReadError .EndOfFile)
      | some (t2, r2) =>
        if t2.type_num = 1 then
          match Uuid.from_bytes t2.data with
          | none => .error (.ProtocolError "Bad UUID")
          | some uuid =>
            match tlv_read r2 with
            | none => .error (.ReadError .EndOfFile)
            | some (t3, _) =>
              if t3.type_num = 2 then
                match readLeU64 t3.data with
                | none => .error (.ProtocolError "Err: end of file")
                | some (ctransid, _) =>
                  .ok { name := t1.data, uuid := uuid, ctransid := ctransid }
              else .error (.ProtocolError ("Unknown type: " ++ toString t3.type_num))
        else .error (.ProtocolError ("Unknown type: " ++ toString t2.type_num))
    else .error (.ProtocolError ("Unknown type: " ++ toString t1.type_num))

/-- BtrfsSubvol::load. -/
def BtrfsSubvol.load (data : List Nat) : Except BtrfsParseError BtrfsSubvol :=
  BtrfsSubvol.parse data

/-- BtrfsSubvol::encap: rebuild the SUBVOL command, emitting TLVs 15, 1
and 2 into a buffer sized for a 16-byte uuid; a shorter write leaves
zero padding and a longer one models the writer assert panic as none. -/
def BtrfsSubvol.encap (self : BtrfsSubvol) : Option BtrfsCommand :=
  let cap := 4 * 3 + self.name.length + 16 + 8
  let written := tlv_push 15 self.name ++ tlv_push 1 self.uuid.bytes ++
    leU16 2 ++ leU16 8 ++ leU64 self.ctransid
  if written.length ≤ cap then
    BtrfsCommand.from_kind .BTRFS_SEND_C_SUBVOL
      (written ++ List.replicate (cap - written.length) 0)
  else none

/-- An incremental-snapshot payload. -/
structure BtrfsSnapshot where
  name : List Nat
  uuid : Uuid
  ctransid : Nat
  clone_uuid : Uuid
  clone_ctransid : Nat
deriving DecidableEq, Repr

/-- BtrfsSnapshot::parse: TLVs in the fixed order (15, name), (1, uuid),
(2, ctransid), (20, clone uuid), (21, clone ctransid). -/
def BtrfsSnapshot.parse (input : List Nat) : Except BtrfsParseError BtrfsSnapshot :=
  match tlv_read input with
  | none => .error (.ReadError .EndOfFile)
  | some (t1, r1) =>
    if t1.type_num = 15 then
      match tlv_read r1 with
      | none => .error (.ReadError .EndOfFile)
      | some (t2, r2) =>
        if t2.type_num = 1 then
          match Uuid.from_bytes t2.data with
          | none => .error (.ProtocolError "Bad UUID")
          | some uuid =>
            match tlv_read r2 with
            | none => .error (.ReadError .EndOfFile)
            | some (t3, r3) =>
              if t3.type_num = 2 then
                match readLeU64 t3.data with
                | none => .error (.ProtocolError "Err: end of file")
                | some (ctransid, _) =>
                  match tlv_read r3 with
                  | none => .error (.ReadError .EndOfFile)
                  | some (t4, r4) =>
                    if t4.type_num = 20 then
                      match Uuid.from_bytes t4.data with
                      | none => .error (.ProtocolError "Bad UUID")
                      | some clone_uuid =>
                        match tlv_read r4 with
                        | none => .error (.ReadError .EndOfFile)
                        | some (t5, _) =>
                          if t5.type_num = 21 then
                            match readLeU64 t5.data with
                            | none => .error (.ProtocolError "Err: end of file")
                            | some (clone_ctransid, _) =>
                              .ok { name := t1.data, uuid := uuid,
                                    ctransid := ctransid, clone_uuid := clone_uuid,
                                    clone_ctransid := clone_ctransid }
                          else .error (.ProtocolError
                            ("Unknown type for clone_ctransid: " ++ toString t5.type_num))
                    else .error (.ProtocolError
                      ("Unknown type for clone_uuid: " ++ toString t4.type_num))
              else .error (.ProtocolError
                ("Unknown type for ctransid: " ++ toString t3.type_num))
        else .error (.ProtocolError ("Unknown type for uuid: " ++ toString t2.type_num))
    else .error (.ProtocolError ("Unknown type for name: " ++ toString t1.type_num))

/-- BtrfsSnapshot::load. -/
def BtrfsSnapshot.load (data : List Nat) : Except BtrfsParseError BtrfsSnapshot :=
  BtrfsSnapshot.parse data

/-- BtrfsSnapshot::encap: rebuild the SNAPSHOT command with TLVs 15, 1,
2, 20 and 21, in a buffer sized for two 16-byte uuids. -/
def BtrfsSnapshot.encap (self : BtrfsSnapshot) : Option BtrfsCommand :=
  let cap := 4 * 5 + self.name.length + 2 * 16 + 8 + 8
  let written := tlv_push 15 self.name ++ tlv_push 1 self.uuid.bytes ++
    leU16 2 ++ leU16 8 ++ leU64 self.ctransid ++
    tlv_push 20 self.clone_uuid.bytes ++
    leU16 21 ++ leU16 8 ++ leU64 self.clone_ctransid
  if written.length ≤ cap then
    BtrfsCommand.from_kind .BTRFS_SEND_C_SNAPSHOT
      (written ++ List.replicate (cap - written.length) 0)
  else none

/-! ## Command iterator (BtrfsCommandIter, btrfs.rs) -/

/-- BtrfsCommandIter::new: parse and validate the header once; a version
other than 1 is InvalidVersion. Returns the reader positioned after the
header. -/
def BtrfsCommandIter.new (input : List Nat) : Except BtrfsParseError (List Nat) :=
  match BtrfsHeader.parse input with
  | .error e => .error e
  | .ok (header, rest) =>
    if header.version ≠ 1 then .error .InvalidVersion else .ok rest

/-- One step of the command iterator when it is not yet finished: frame
parse errors are fatal to the whole program (a fail macro), modelled as
panicked. -/
def BtrfsCommandIter.next (input : List Nat) : ParseOut (BtrfsCommand × List Nat) :=
  match BtrfsCommand.parse input with
  | .ok out => .ok out
  | .err _ => .panicked
  | .panicked => .panicked

/-- get_first_command: construct the iterator (header checks) and take
its first command; the iterator never yields none on its first step, so
the No-commands branch of the source is unreachable. -/
def get_first_command (input : List Nat) : ParseOut BtrfsCommand :=
  match BtrfsCommandIter.new input with
  | .error e => .err e
  | .ok rest =>
    match BtrfsCommandIter.next rest with
    | .ok (cmd, _) => .ok cmd
    | .err e => .err e
    | .panicked => .panicked

/-! ## Concatenation engine (BtrfsCommandConcatIter, btrfs_concat.rs)

A file is modelled by its byte contents; opening a file always succeeds
in this model (open errors belong to the environment), while header
parsing and version checks behave as in the source. -/

/-- The state of the concat iterator. The reader fields hold the bytes
not yet consumed of the corresponding file; current_path records the
path of the middle file currently open, and only its presence is
observable (it routes errors into a fail macro inside next). -/
structure ConcatState where
  paths : List (List Nat)
  current_path : Option (List Nat)
  reader : Option (List Nat)
  last_snap_cmd : Option BtrfsSnapshot
  last_reader : Option (List Nat)
  curr_uuid : Option Uuid
deriving DecidableEq, Repr

/-- BtrfsCommandConcatIter::new: pop the last path, validate its header,
parse its first command as a Snapshot and keep its remainder as the
saved last reader; then open the first path as the active reader. Every
assert, unwrap or fail macro is modelled as none. -/
def BtrfsCommandConcatIter.new (paths : List (List Nat)) : Option ConcatState :=
  if paths.length < 2 then none
  else
    match paths.getLast? with
    | none => none
    | some lastBytes =>
      match BtrfsHeader.parse lastBytes with
      | .error _ => none
      | .ok (header, lastRest) =>
        if header.version ≠ 1 then none
        else
          match BtrfsCommandBuf.read lastRest with
          | none => none
          | some (cmdBuf, lastRest2) =>
            match BtrfsSnapshot.load cmdBuf.get_data with
            | .error _ => none
            | .ok snap =>
              match paths.dropLast with
              | [] =>
                some { paths := [], current_path := none, reader := none,
                       last_snap_cmd := some snap, last_reader := some lastRest2,
                       curr_uuid := none }
              | firstBytes :: middles =>
                match BtrfsHeader.parse firstBytes with
                | .error _ => none
                | .ok (header2, firstRest) =>
                  if header2.version ≠ 1 then none
                  else
                    some { paths := middles, current_path := none,
                           reader := some firstRest, last_snap_cmd := some snap,
                           last_reader := some lastRest2, curr_uuid := none }

/-- BtrfsCommandConcatIter::validation_hook: on a SUBVOL frame assert no
current UUID is held and record the subvol uuid; on a SNAPSHOT frame
assert the clone uuid equals the current UUID and record the snapshot
uuid; payload parse failures are fail panics. none models the panic. -/
def BtrfsCommandConcatIter.validation_hook (self : ConcatState)
    (command : BtrfsCommandBuf) : Option ConcatState :=
  match
    (if command.get_kind = some .BTRFS_SEND_C_SUBVOL then
      if self.curr_uuid.isSome then none
      else
        match BtrfsSubvol.load command.get_data with
        | .ok subvol => some { self with curr_uuid := some subvol.uuid }
        | .error _ => none
    else some self) with
  | none => none
  | some s1 =>
    if command.get_kind = some .BTRFS_SEND_C_SNAPSHOT then
      match BtrfsSnapshot.load command.get_data with
      | .ok snap =>
        if s1.curr_uuid = some snap.clone_uuid then
          some { s1 with curr_uuid := some snap.uuid }
        else none
      | .error _ => none
    else some s1

/-- BtrfsCommandConcatIter::suppress_command: skip an END while the saved
last reader is still set, and skip every SNAPSHOT. -/
def BtrfsCommandConcatIter.suppress_command (self : ConcatState)
    (command : BtrfsCommandBuf) : Bool :=
  (command.get_kind == some .BTRFS_SEND_C_END && self.last_reader.isSome) ||
    (command.get_kind == some .BTRFS_SEND_C_SNAPSHOT)

/-- BtrfsCommandConcatIter::transform: while the adopted-name slot is
held, rewrite an incoming SUBVOL payload with the adopted name, rebuild
and re-read the frame, and consume the slot; unwrap panics are none. -/
def BtrfsCommandConcatIter.transform (self : ConcatState)
    (command : BtrfsCommandBuf) : Option (BtrfsCommandBuf × ConcatState) :=
  if self.last_snap_cmd.isSome && command.get_kind == some .BTRFS_SEND_C_SUBVOL then
    match BtrfsSubvol.load command.get_data with
    | .error _ => none
    | .ok subv =>
      match self.last_snap_cmd with
      | none => none
      | some snap =>
        let subv2 := { subv with name := snap.name }
        match subv2.encap with
        | none => none
        | some cmd =>
          match cmd.serialize with
          | none => none
          | some bytes =>
            match BtrfsCommandBuf.read bytes with
            | none => none
            | some (buf2, _) => some (buf2, { self with last_snap_cmd := none })
  else some (command, self)

/-- The observable outcome of one engine step. -/
inductive CCRes where
  | yield (buf : BtrfsCommandBuf)
  | errRes (e : BtrfsParseError)
  | panicked
  | done
  | fuelOut
deriving DecidableEq, Repr

/-- Opening a queued path inside current_command: parse the header (a
parse failure is a fail panic) and assert version 1; returns the reader
positioned after the header. -/
def concatOpenPath (pathBytes : List Nat) : Option (List Nat) :=
  match BtrfsHeader.parse pathBytes with
  | .error _ => none
  | .ok (header, rest) => if header.version = 1 then some rest else none

/-- BtrfsCommandConcatIter::current_command. With an active reader: read
a raw frame (any read failure, including a clean end of file, is
returned to the caller as a ReadError), run the validation hook, parse
the frame (an end-of-file from this in-memory parse would clear the
reader and fall through to rotation; an unknown kind is an unwrap
panic), and on success transform and yield. Without an active reader:
promote the saved last reader when no paths remain, else open the next
queued path and retry. The fuel argument only bounds the recursion and
one unit is spent per rotation. -/
def BtrfsCommandConcatIter.current_command : Nat → ConcatState → CCRes × ConcatState
  | 0, s => (.fuelOut, s)
  | fuel + 1, s =>
    let step1 : (CCRes × ConcatState) ⊕ ConcatState :=
      match s.reader with
      | none => .inr s
      | some input =>
        match BtrfsCommandBuf.read input with
        | none => .inl (.errRes (.ReadError .EndOfFile), s)
        | some (buf, rest) =>
          let s1 := { s with reader := some rest }
          match BtrfsCommandConcatIter.validation_hook s1 buf with
          | none => .inl (.panicked, s1)
          | some s2 =>
            match buf.parse with
            | .ok _ =>
              match BtrfsCommandConcatIter.transform s2 buf with
              | none => .inl (.panicked, s2)
              | some (buf2, s3) => .inl (.yield buf2, s3)
            | .err e =>
              if e.is_eof then .inr { s2 with reader := none }
              else .inl (.errRes e, s2)
            | .panicked => .inl (.panicked, s2)
    match step1 with
    | .inl out => out
    | .inr s' =>
      if s'.paths.isEmpty && s'.last_reader.isSome then
        BtrfsCommandConcatIter.current_command fuel
          { s' with reader := s'.last_reader, last_reader := none }
      else
        match s'.paths with
        | [] => (.done, s')
        | pathBytes :: restPaths =>
          match concatOpenPath pathBytes with
          | none => (.panicked, s')
          | some r =>
            BtrfsCommandConcatIter.current_command fuel
              { s' with paths := restPaths, reader := some r,
                        current_path := some pathBytes }

/-- Iterator::next for the concat iterator: loop over current_command
skipping suppressed frames; an error while a middle-file path is
recorded becomes a fail panic, otherwise the error is returned. -/
def BtrfsCommandConcatIter.next : Nat → ConcatState → CCRes × ConcatState
  | 0, s => (.fuelOut, s)
  | fuel + 1, s =>
    match BtrfsCommandConcatIter.current_command (fuel + 1) s with
    | (.yield buf, s') =>
      if BtrfsCommandConcatIter.suppress_command s' buf then
        BtrfsCommandConcatIter.next fuel s'
      else (.yield buf, s')
    | (.errRes e, s') =>
      if s'.current_path.isSome then (.panicked, s') else (.errRes e, s')
    | other => other

/-- The outcome of driving the concat iterator to completion. -/
inductive RunOut where
  | finished
  | errOut (e : BtrfsParseError)
  | panickedOut
  | fuelOut
deriving DecidableEq, Repr

/-- The frame-emission loop of write_out: drain the iterator, collecting
the raw bytes of each emitted frame; the version-1 header bytes are
written before this loop (see write_out_stream). -/
def write_out : Nat → ConcatState → RunOut × List (List Nat)
  | 0, _ => (.fuelOut, [])
  | fuel + 1, s =>
    match BtrfsCommandConcatIter.next (fuel + 1) s with
    | (.yield buf, s') =>
      let rec1 := write_out fuel s'
      (rec1.1, buf.as_slice :: rec1.2)
    | (.errRes e, _) => (.errOut e, [])
    | (.panicked, _) => (.panickedOut, [])
    | (.done, _) => (.finished, [])
    | (.fuelOut, _) => (.fuelOut, [])

/-- write_out: the full output stream is one serialized version-1 header
followed by the bytes of every emitted frame. -/
def write_out_stream (fuel : Nat) (s : ConcatState) : RunOut × List Nat :=
  let body := write_out fuel s
  (body.1, BtrfsHeader.serialize { version := 1 } ++ body.2.flatten)

/-! ## Repository and fsck (repository.rs) -/

/-- BackupNodeKind: a full backup wraps the subvol payload, an
incremental backup wraps the snapshot payload. -/
inductive BackupNodeKind where
  | FullBackup (subvol : BtrfsSubvol)
  | IncrementalBackup (snap : BtrfsSnapshot)
deriving DecidableEq, Repr

/-- A backup node extracted from the first command of a stream file. -/
structure BackupNode where
  kind : BackupNodeKind
  uuid : Uuid
  parent_uuid : Option Uuid
  path : List Nat
  name : List Nat
deriving DecidableEq, Repr

/-- BackupNode::from_btrfs_command: a SUBVOL first command gives a full
node with no parent, a SNAPSHOT gives an incremental node whose parent
is the clone uuid; a payload parse failure or any other command kind is
a fail panic, modelled as none. -/
def BackupNode.from_btrfs_command (path : List Nat) (command : BtrfsCommand) :
    Option BackupNode :=
  match command.kind with
  | .BTRFS_SEND_C_SUBVOL =>
    match BtrfsSubvol.parse command.data with
    | .ok subvol =>
      some { kind := .FullBackup subvol, uuid := subvol.uuid, parent_uuid := none,
             path := path, name := subvol.name }
    | .error _ => none
  | .BTRFS_SEND_C_SNAPSHOT =>
    match BtrfsSnapshot.parse command.data with
    | .ok snap =>
      some { kind := .IncrementalBackup snap, uuid := snap.uuid,
             parent_uuid := some snap.clone_uuid, path := path, name := snap.name }
    | .error _ => none
  | _ => none

/-- A directory entry as seen by the loader: the path of the file and
its contents, with none modelling a File::open failure. -/
structure DirEntry where
  path : List Nat
  content : Option (List Nat)
deriving DecidableEq, Repr

/-- A loaded repository: root path and the collected nodes. -/
structure Repository where
  root : List Nat
  nodes : List BackupNode
deriving DecidableEq, Repr

/-- The per-entry loop of Repository::load: an entry that cannot be
opened is skipped, a first-command error result is skipped, but a panic
while fetching the first command or inside from_btrfs_command aborts the
whole load (modelled as none). -/
def Repository.loadNodes : List DirEntry → Option (List BackupNode)
  | [] => some []
  | entry :: rest =>
    match entry.content with
    | none => Repository.loadNodes rest
    | some bytes =>
      match get_first_command bytes with
      | .err _ => Repository.loadNodes rest
      | .panicked => none
      | .ok command =>
        match BackupNode.from_btrfs_command entry.path command with
        | none => none
        | some node => (Repository.loadNodes rest).map (node :: ·)

/-- A pending fsck reachability record for a node with a parent. -/
structure FsckReachabilityRecord where
  is_reachable : Bool
  uuid : Uuid
  parent_uuid : Uuid
deriving DecidableEq, Repr

/-- FsckReachabilityRecord::from_node: only nodes with a parent get a
record, initially unreachable. -/
def FsckReachabilityRecord.from_node (node : BackupNode) :
    Option FsckReachabilityRecord :=
  node.parent_uuid.map (fun p => ⟨false, node.uuid, p⟩)

/-- The seeding pass of find_orphans: nodes without a parent seed the
root-reachable set, each node with a parent becomes a pending record (in
node order). -/
def fsckInit : List BackupNode → Finset Uuid × List FsckReachabilityRecord
  | [] => (∅, [])
  | node :: rest =>
    let acc := fsckInit rest
    match FsckReachabilityRecord.from_node node with
    | some record => (acc.1, record :: acc.2)
    | none => (insert node.uuid acc.1, acc.2)

/-- The result of one scanning pass of find_orphans. -/
structure FsckPassResult where
  root_reachable : Finset Uuid
  records : List FsckReachabilityRecord
  changed : Bool
  total_scanned : Nat
  reachables_found : Nat

/-- One pass of the find_orphans loop over the records in order: an
unreachable record whose parent is already root-reachable is marked and
its uuid inserted (visible to later records of the same pass); the pass
counts scanned records and reachable records. -/
def fsckPass (root : Finset Uuid) :
    List FsckReachabilityRecord → FsckPassResult
  | [] =>
    { root_reachable := root, records := [], changed := false,
      total_scanned := 0, reachables_found := 0 }
  | record :: rest =>
    if record.is_reachable then
      let res := fsckPass root rest
      { res with records := record :: res.records,
                 total_scanned := res.total_scanned + 1,
                 reachables_found := res.reachables_found + 1 }
    else if record.parent_uuid ∈ root then
      let res := fsckPass (insert record.uuid root) rest
      { res with records := { record with is_reachable := true } :: res.records,
                 changed := true,
                 total_scanned := res.total_scanned + 1,
                 reachables_found := res.reachables_found + 1 }
    else
      let res := fsckPass root rest
      { res with records := record :: res.records,
                 total_scanned := res.total_scanned + 1 }

/-- The fixpoint loop of find_orphans: run a pass, compact the record
list when at least three quarters of the scanned records are reachable,
and stop after the first pass that marked nothing new. The fuel only
bounds the iteration count; find_orphans supplies enough fuel for the
loop to reach its break condition. -/
def find_orphans_loop : Nat → Finset Uuid → List FsckReachabilityRecord →
    Finset Uuid × List FsckReachabilityRecord
  | 0, root, records => (root, records)
  | fuel + 1, root, records =>
    let res := fsckPass root records
    let records2 :=
      if res.total_scanned * 3 ≤ 4 * res.reachables_found then
        res.records.filter (fun r => !r.is_reachable)
      else res.records
    if res.changed then find_orphans_loop fuel res.root_reachable records2
    else (res.root_reachable, records2)

/-- Repository::find_orphans over a node list: seed, iterate to the
fixpoint, and return the uuids of the records still unreachable. -/
def Repository.find_orphans (nodes : List BackupNode) : Finset Uuid :=
  let seeded := fsckInit nodes
  let final := find_orphans_loop (seeded.2.length + 1) seeded.1 seeded.2
  ((final.2.filter (fun r => !r.is_reachable)).map (·.uuid)).toFinset

/-- Repository::load: collect the nodes of the directory, then always
prune the orphans from the returned node list (there is no fsck
parameter in the source; the stderr report is ignored). -/
def Repository.load (root : List Nat) (entries : List DirEntry) : Option Repository :=
  (Repository.loadNodes entries).map (fun nodes =>
    let orphans := Repository.find_orphans nodes
    { root := root, nodes := nodes.filter (fun n => n.uuid ∉ orphans) })

/-- Modelled from the spec: Repository::load_from_nofsck is called by
server_fsck.rs but absent from repository.rs; per spec section 4.5 the
loader with fsck false returns every node without pruning, leaving
find_orphans to the caller. -/
def Repository.load_from_nofsck (root : List Nat) (entries : List DirEntry) :
    Option Repository :=
  (Repository.loadNodes entries).map (fun nodes => { root := root, nodes := nodes })

/-! ## Declarative reachability (the specification side of fsck) -/

/-- A uuid is root-reachable in a node list when it is the uuid of a
node without a parent, or of a node whose parent uuid is itself
root-reachable. -/
inductive RootReach (nodes : List BackupNode) : Uuid → Prop
  | root (n : BackupNode) (hmem : n ∈ nodes) (hp : n.parent_uuid = none) :
      RootReach nodes n.uuid
  | step (n : BackupNode) (p : Uuid) (hmem : n ∈ nodes)
      (hp : n.parent_uuid = some p) (hr : RootReach nodes p) :
      RootReach nodes n.uuid

/-- A reachability record describes an edge of the node list: some node
has its uuid and its parent uuid. -/
def EdgeOf (nodes : List BackupNode) (r : FsckReachabilityRecord) : Prop :=
  ∃ n ∈ nodes, n.uuid = r.uuid ∧ n.parent_uuid = some r.parent_uuid

/-- The number of records not yet marked reachable; this is the loop
variant of the find_orphans fixpoint. -/
def recUnmarked (records : List FsckReachabilityRecord) : Nat :=
  (records.filter (fun r => !r.is_reachable)).length

/-- The invariant of the find_orphans loop: records describe edges of
the node list; marked records have their uuid in the root-reachable set;
the set is sound for declarative reachability; unmarked records have
their uuid outside the set; record uuids are distinct; parent-less nodes
seeded the set; and every edge either still has a live unmarked record
or its uuid already entered the set. -/
def FsckInvariant (nodes : List BackupNode) (root : Finset Uuid)
    (records : List FsckReachabilityRecord) : Prop :=
  (∀ r ∈ records, EdgeOf nodes r) ∧
  (∀ r ∈ records, r.is_reachable = true → r.uuid ∈ root) ∧
  (∀ u ∈ root, RootReach nodes u) ∧
  (∀ r ∈ records, r.is_reachable = false → r.uuid ∉ root) ∧
  (records.map (·.uuid)).Nodup ∧
  (∀ n ∈ nodes, n.parent_uuid = none → n.uuid ∈ root) ∧
  (∀ n ∈ nodes, ∀ p : Uuid, n.parent_uuid = some p →
    (∃ r ∈ records, r.uuid = n.uuid ∧ r.parent_uuid = p ∧ r.is_reachable = false) ∨
      n.uuid ∈ root)

/-! ## Concrete example data used by counterexamples and witnesses -/

/-- A 16-byte example uuid built from one byte value. -/
def exUuid (b : Nat) : Uuid := ⟨List.replicate 16 b⟩

/-- Example subvol payload: name A, uuid of ones, ctransid 7. -/
def exSubvol : BtrfsSubvol := ⟨[65], exUuid 1, 7⟩

/-- Example snapshot payload whose clone uuid matches exSubvol. -/
def exSnapshot : BtrfsSnapshot := ⟨[66], exUuid 2, 9, exUuid 1, 7⟩

/-- Example snapshot payload whose clone uuid breaks the chain. -/
def exSnapshotBad : BtrfsSnapshot := ⟨[66], exUuid 2, 9, exUuid 3, 7⟩

/-- Serialized version-1 stream header. -/
def exHeader1 : List Nat := BtrfsHeader.serialize ⟨1⟩

/-- A one-byte WRITE frame (crc field left zero; the concat engine never
checks frame CRCs). -/
def exWriteFrame (b : Nat) : List Nat := leU32 1 ++ leU16 15 ++ leU32 0 ++ [b]

/-- An empty END frame. -/
def exEndFrame : List Nat := leU32 0 ++ leU16 21 ++ leU32 0

/-- A SUBVOL wire frame carrying exSubvol, with a zero CRC field (the
concat engine never checks frame CRCs). -/
def exSubvolFrame : List Nat :=
  leU32 37 ++ leU16 1 ++ leU32 0 ++
    (tlv_push 15 [65] ++ tlv_push 1 (exUuid 1).bytes ++ leU16 2 ++ leU16 8 ++ leU64 7)

/-- A SNAPSHOT wire frame carrying exSnapshot, with a zero CRC field. -/
def exSnapshotFrame : List Nat :=
  leU32 69 ++ leU16 2 ++ leU32 0 ++
    (tlv_push 15 [66] ++ tlv_push 1 (exUuid 2).bytes ++ leU16 2 ++ leU16 8 ++ leU64 9 ++
     tlv_push 20 (exUuid 1).bytes ++ leU16 21 ++ leU16 8 ++ leU64 7)

/-- Head input file of the concat scenario of spec section 8: header,
SUBVOL A, one WRITE, END. -/
def exPathZero : List Nat := exHeader1 ++ exSubvolFrame ++ exWriteFrame 9 ++ exEndFrame

/-- Tail input file: header, SNAPSHOT B cloned from A, one WRITE, END. -/
def exPathOne : List Nat := exHeader1 ++ exSnapshotFrame ++ exWriteFrame 8 ++ exEndFrame

/-- A concat state whose active reader stands at a clean end of file,
with one unopened path queued and the saved last reader still set. -/
def exStateEof : ConcatState :=
  { paths := [exPathOne]
    current_path := none
    reader := some []
    last_snap_cmd := none
    last_reader := some (exWriteFrame 8 ++ exEndFrame)
    curr_uuid := some (exUuid 1) }

/-- An empty frame whose kind field 23 is not a defined command kind. -/
def exUnknownFrame : List Nat := leU32 0 ++ leU16 23 ++ leU32 0

/-- A concat state about to fetch the unknown-kind frame. -/
def exStateUnknown : ConcatState :=
  { paths := []
    current_path := none
    reader := some exUnknownFrame
    last_snap_cmd := none
    last_reader := some [0]
    curr_uuid := none }

/-- Example full backup node keyed by one byte value. -/
def exFullNode (b : Nat) : BackupNode :=
  { kind := .FullBackup ⟨[b], exUuid b, 0⟩, uuid := exUuid b, parent_uuid := none,
    path := [b], name := [b] }

/-- Example incremental backup node with uuid byte b and parent byte p. -/
def exIncrNode (b p : Nat) : BackupNode :=
  { kind := .IncrementalBackup ⟨[b], exUuid b, 0, exUuid p, 0⟩, uuid := exUuid b,
    parent_uuid := some (exUuid p), path := [b], name := [b] }

/-- A node list in which a full node and an incremental node share the
uuid of ones while the incremental parent (nines) is absent. -/
def exDupNodes : List BackupNode := [exFullNode 1, exIncrNode 1 9]

/-- The node list of spec scenario 5: Full 1, Incr 2 from 1, Incr 3 from
the absent 9. -/
def exScenarioNodes : List BackupNode := [exFullNode 1, exIncrNode 2 1, exIncrNode 3 9]

/-- A typed command whose stored crc32 field 1 is not its canonical CRC. -/
def exCmdBadCrc : BtrfsCommand := ⟨0, .BTRFS_SEND_C_END, 1, []⟩

/-- A directory entry whose stream opens with a WRITE command. -/
def exEntryWrite : DirEntry := ⟨[1], some (exHeader1 ++ exWriteFrame 9)⟩

/-- A concat state about to fetch a snapshot frame while holding no
current UUID (a chain break). -/
def exStateSnapMismatch : ConcatState :=
  { paths := []
    current_path := none
    reader := some exSnapshotFrame
    last_snap_cmd := none
    last_reader := some [0]
    curr_uuid := none }

/-- The outcome and emitted frame kinds of running the concat engine on
the two-file scenario of spec section 8. -/
def exConcatRun : Option (RunOut × List (Option BtrfsCommandType)) :=
  (BtrfsCommandConcatIter.new [exPathZero, exPathOne]).map (fun st =>
    ((write_out 32 st).1, (write_out 32 st).2.map (fun f => BtrfsCommandBuf.get_kind ⟨f⟩)))

/-- The first frame emitted by the concat engine on the two-file
scenario, decoded as a subvol payload. -/
def exConcatFirstFrame : Option (Option BtrfsSubvol) :=
  (BtrfsCommandConcatIter.new [exPathZero, exPathOne]).map (fun st =>
    (BtrfsSubvol.load (BtrfsCommandBuf.get_data ⟨(write_out 32 st).2.headD []⟩)).toOption)

/-! # Supporting lemmas -/

theorem decodeLE_leU16 (n : Nat) : decodeLE (leU16 n) = n % 2 ^ 16 := by
  simp [leU16, decodeLE]
  omega

theorem decodeLE_leU32 (n : Nat) : decodeLE (leU32 n) = n % 2 ^ 32 := by
  simp [leU32, decodeLE]
  omega

theorem readExact_append {n : Nat} (l r : List Nat) (h : l.length = n) :
    readExact n (l ++ r) = some (l, r) := by
  subst h
  simp [readExact, List.take_left, List.drop_left]

theorem readLeU16_append (n : Nat) (r : List Nat) :
    readLeU16 (leU16 n ++ r) = some (n % 2 ^ 16, r) := by
  rw [readLeU16, @readExact_append 2 (leU16 n) r rfl]
  simp [decodeLE_leU16]

theorem readLeU32_append (n : Nat) (r : List Nat) :
    readLeU32 (leU32 n ++ r) = some (n % 2 ^ 32, r) := by
  rw [readLeU32, @readExact_append 4 (leU32 n) r rfl]
  simp [decodeLE_leU32]

theorem crc32cStepBit_lt {st : Nat} (h : st < 2 ^ 32) : crc32cStepBit st < 2 ^ 32 := by
  have hs : st >>> 1 < 2 ^ 32 := by
    rw [Nat.shiftRight_eq_div_pow]
    omega
  unfold crc32cStepBit
  split
  · exact Nat.xor_lt_two_pow hs (by norm_num)
  · exact hs

theorem crc32cStepBit_iterate_lt (k : Nat) {st : Nat} (h : st < 2 ^ 32) :
    crc32cStepBit^[k] st < 2 ^ 32 := by
  induction k generalizing st with
  | zero => simpa using h
  | succ k ih =>
    rw [Function.iterate_succ_apply]
    exact ih (crc32cStepBit_lt h)

theorem crc32cStepByte_lt {st : Nat} (b : Nat) (h : st < 2 ^ 32) :
    crc32cStepByte st b < 2 ^ 32 := by
  unfold crc32cStepByte
  exact crc32cStepBit_iterate_lt 8
    (Nat.xor_lt_two_pow h (lt_of_lt_of_le (Nat.mod_lt _ (by norm_num)) (by norm_num)))

theorem foldl_crc32cStepByte_lt (data : List Nat) {st : Nat} (h : st < 2 ^ 32) :
    data.foldl crc32cStepByte st < 2 ^ 32 := by
  induction data generalizing st with
  | nil => simpa using h
  | cons b rest ih => exact ih (crc32cStepByte_lt b h)

theorem crc32c_lt (seed : Nat) (data : List Nat) : crc32c seed data < 2 ^ 32 :=
  foldl_crc32cStepByte_lt data (Nat.mod_lt _ (by norm_num))

theorem crc32c_append (seed : Nat) (a b : List Nat) :
    crc32c (crc32c seed a) b = crc32c seed (a ++ b) := by
  unfold crc32c
  rw [Nat.mod_eq_of_lt (foldl_crc32cStepByte_lt a (Nat.mod_lt _ (by norm_num))),
    List.foldl_append]

theorem fromU16_toU16 (k : BtrfsCommandType) :
    btrfsCommandTypeFromU16 (btrfsCommandTypeToU16 k) = some k := by
  cases k <;> rfl

theorem fromU16_eq_none {n : Nat} (h : 23 ≤ n) : btrfsCommandTypeFromU16 n = none := by
  unfold btrfsCommandTypeFromU16
  split <;> first | rfl | omega

theorem toU16_fromU16 {n : Nat} {k : BtrfsCommandType}
    (h : btrfsCommandTypeFromU16 n = some k) : btrfsCommandTypeToU16 k = n := by
  have h23 : n < 23 := by
    by_contra hc
    rw [fromU16_eq_none (by omega)] at h
    exact Option.noConfusion h
  interval_cases n <;>
    (simp only [btrfsCommandTypeFromU16, Option.some.injEq] at h; subst h; rfl)

theorem toU16_lt (k : BtrfsCommandType) : btrfsCommandTypeToU16 k < 2 ^ 16 := by
  cases k <;> norm_num [btrfsCommandTypeToU16]

theorem BtrfsCommand.serialize_eq {c : BtrfsCommand} (h : c.data.length = c.len) :
    c.serialize = some (leU32 c.len ++ leU16 (btrfsCommandTypeToU16 c.kind) ++
      leU32 c.calcCrcVal ++ c.data) := by
  simp [BtrfsCommand.serialize, BtrfsCommand.calculate_crc32, h]

theorem BtrfsCommand.parse_append {len k crc : Nat} {data rest : List Nat}
    {kind : BtrfsCommandType} (hl : data.length = len) (hlen : len < 2 ^ 32)
    (hk : k < 2 ^ 16) (hcrc : crc < 2 ^ 32)
    (hfk : btrfsCommandTypeFromU16 k = some kind) :
    BtrfsCommand.parse (leU32 len ++ (leU16 k ++ (leU32 crc ++ (data ++ rest)))) =
      .ok ({ len := len, kind := kind, crc32 := crc, data := data }, rest) := by
  simp only [BtrfsCommand.parse, readLeU32_append, readLeU16_append,
    Nat.mod_eq_of_lt hlen, Nat.mod_eq_of_lt hk, Nat.mod_eq_of_lt hcrc,
    readExact_append data rest hl, hfk]

theorem BtrfsCommand.parse_append_unknown {len k crc : Nat} {data rest : List Nat}
    (hl : data.length = len) (hlen : len < 2 ^ 32) (hk : k < 2 ^ 16)
    (hfk : btrfsCommandTypeFromU16 k = none) :
    BtrfsCommand.parse (leU32 len ++ (leU16 k ++ (leU32 crc ++ (data ++ rest)))) =
      .panicked := by
  simp only [BtrfsCommand.parse, readLeU32_append, readLeU16_append,
    Nat.mod_eq_of_lt hlen, Nat.mod_eq_of_lt hk,
    readExact_append data rest hl, hfk]

theorem BtrfsCommandBuf.read_append {len : Nat} {body rest : List Nat}
    (h : body.length = 2 + 4 + len) (hlen : len < 2 ^ 32) :
    BtrfsCommandBuf.read (leU32 len ++ (body ++ rest)) =
      some (⟨leU32 len ++ body⟩, rest) := by
  simp only [BtrfsCommandBuf.read, readLeU32_append, Nat.mod_eq_of_lt hlen,
    readExact_append body rest h]

theorem frame_take_six (len k crc : Nat) (data : List Nat) :
    (leU32 len ++ leU16 k ++ leU32 crc ++ data).take 6 = leU32 len ++ leU16 k :=
  @List.take_left' Nat (leU32 len ++ leU16 k) (leU32 crc ++ data) 6 rfl

theorem frame_drop_ten (len k crc : Nat) (data : List Nat) :
    (leU32 len ++ leU16 k ++ leU32 crc ++ data).drop 10 = data :=
  @List.drop_left' Nat (leU32 len ++ leU16 k ++ leU32 crc) data 10 rfl

theorem frame_drop_six (len k crc : Nat) (data : List Nat) :
    (leU32 len ++ leU16 k ++ leU32 crc ++ data).drop 6 = leU32 crc ++ data :=
  @List.drop_left' Nat (leU32 len ++ leU16 k) (leU32 crc ++ data) 6 rfl

theorem bufCalc_frame (len k crc : Nat) (data : List Nat) :
    BtrfsCommandBuf.calculate_crc32 ⟨leU32 len ++ leU16 k ++ leU32 crc ++ data⟩ =
      crc32c 0 (leU32 len ++ leU16 k ++ [0, 0, 0, 0] ++ data) := by
  rw [BtrfsCommandBuf.calculate_crc32]
  show crc32c (crc32c (crc32c 0 ((leU32 len ++ leU16 k ++ leU32 crc ++ data).take 6))
    [0, 0, 0, 0]) ((leU32 len ++ leU16 k ++ leU32 crc ++ data).drop 10) = _
  rw [frame_take_six, frame_drop_ten, crc32c_append, crc32c_append]
  simp [List.append_assoc]

theorem get_crc32_frame (len k crc : Nat) (data : List Nat) :
    BtrfsCommandBuf.get_crc32 ⟨leU32 len ++ leU16 k ++ leU32 crc ++ data⟩ =
      crc % 2 ^ 32 := by
  rw [BtrfsCommandBuf.get_crc32]
  show decodeLE (((leU32 len ++ leU16 k ++ leU32 crc ++ data).drop 6).take 4) = _
  rw [frame_drop_six, @List.take_left' Nat (leU32 crc) data 4 rfl, decodeLE_leU32]

theorem from_kind_spec (kind : BtrfsCommandType) (data : List Nat)
    (h : data.length < 2 ^ 32) :
    BtrfsCommand.from_kind kind data =
      some { len := data.length, kind := kind,
             crc32 := BtrfsCommand.calcCrcVal
               { len := data.length, kind := kind, crc32 := 0, data := data },
             data := data } := by
  have hmod : data.length % 4294967296 = data.length := Nat.mod_eq_of_lt (by omega)
  simp [BtrfsCommand.from_kind, BtrfsCommand.calculate_crc32, hmod]

theorem calcCrcVal_crc32_irrelevant (len : Nat) (kind : BtrfsCommandType)
    (c c' : Nat) (data : List Nat) :
    BtrfsCommand.calcCrcVal { len := len, kind := kind, crc32 := c, data := data } =
      BtrfsCommand.calcCrcVal { len := len, kind := kind, crc32 := c', data := data } := rfl

theorem from_kind_validate (kind : BtrfsCommandType) (data : List Nat)
    (h : data.length < 2 ^ 32) :
    (BtrfsCommand.from_kind kind data).bind BtrfsCommand.validate_crc32 = some true := by
  rw [from_kind_spec kind data h]
  simp [BtrfsCommand.validate_crc32, BtrfsCommand.calculate_crc32, BtrfsCommand.calcCrcVal]

theorem subvol_encap_eq (s : BtrfsSubvol) (huuid : s.uuid.bytes.length = 16) :
    s.encap = BtrfsCommand.from_kind .BTRFS_SEND_C_SUBVOL
      (tlv_push 15 s.name ++ tlv_push 1 s.uuid.bytes ++
        leU16 2 ++ leU16 8 ++ leU64 s.ctransid) := by
  have hw : (tlv_push 15 s.name ++ tlv_push 1 s.uuid.bytes ++
      leU16 2 ++ leU16 8 ++ leU64 s.ctransid).length = 4 * 3 + s.name.length + 16 + 8 := by
    simp [tlv_push, leU16, leU64, huuid]
    omega
  simp only [BtrfsSubvol.encap]
  rw [hw]
  simp

theorem snapshot_encap_eq (s : BtrfsSnapshot) (huuid : s.uuid.bytes.length = 16)
    (hclone : s.clone_uuid.bytes.length = 16) :
    s.encap = BtrfsCommand.from_kind .BTRFS_SEND_C_SNAPSHOT
      (tlv_push 15 s.name ++ tlv_push 1 s.uuid.bytes ++
        leU16 2 ++ leU16 8 ++ leU64 s.ctransid ++ tlv_push 20 s.clone_uuid.bytes ++
        leU16 21 ++ leU16 8 ++ leU64 s.clone_ctransid) := by
  have hw : (tlv_push 15 s.name ++ tlv_push 1 s.uuid.bytes ++
      leU16 2 ++ leU16 8 ++ leU64 s.ctransid ++ tlv_push 20 s.clone_uuid.bytes ++
      leU16 21 ++ leU16 8 ++ leU64 s.clone_ctransid).length =
      4 * 5 + s.name.length + 2 * 16 + 8 + 8 := by
    simp [tlv_push, leU16, leU64, huuid, hclone]
    omega
  simp only [BtrfsSnapshot.encap]
  rw [hw]
  simp

/-! # Claim theorems -/

/-- C6: the canonical CRC of a framed command is the CRC32C computed over
the first 6 header bytes, then four zero bytes, then the payload bytes
(the CRC field blanked). The raw-buffer calculate_crc32 computes exactly
this value on any buffer; the typed-command calculate_crc32 computes the
same formula whenever its length assert holds (and panics otherwise);
the two agree on the serialized frame of the same command; and
validate_crc32 holds exactly when the stored CRC field equals this
value. -/
theorem crc32_canonical_convention :
    (∀ buf : List Nat,
      BtrfsCommandBuf.calculate_crc32 ⟨buf⟩ =
        crc32c 0 (buf.take 6 ++ [0, 0, 0, 0] ++ buf.drop 10)) ∧
    (∀ c : BtrfsCommand, c.data.length = c.len →
      c.calculate_crc32 = some (crc32c 0 (leU32 c.len ++
        leU16 (btrfsCommandTypeToU16 c.kind) ++ [0, 0, 0, 0] ++ c.data))) ∧
    (∀ c : BtrfsCommand, c.data.length ≠ c.len → c.calculate_crc32 = none) ∧
    (∀ (c : BtrfsCommand) (B : List Nat), c.data.length = c.len →
      c.serialize = some B →
      BtrfsCommandBuf.calculate_crc32 ⟨B⟩ = c.calcCrcVal) ∧
    (∀ (len k crc : Nat) (data : List Nat),
      BtrfsCommandBuf.validate_crc32 ⟨leU32 len ++ leU16 k ++ leU32 crc ++ data⟩ = true ↔
        crc % 2 ^ 32 = crc32c 0 (leU32 len ++ leU16 k ++ [0, 0, 0, 0] ++ data)) := by
  refine ⟨?_, ?_, ?_, ?_, ?_⟩
  · intro buf
    rw [BtrfsCommandBuf.calculate_crc32]
    show crc32c (crc32c (crc32c 0 (buf.take 6)) [0, 0, 0, 0]) (buf.drop 10) = _
    rw [crc32c_append, crc32c_append, List.append_assoc]
  · intro c h
    simp [BtrfsCommand.calculate_crc32, h, BtrfsCommand.calcCrcVal]
  · intro c h
    simp [BtrfsCommand.calculate_crc32, h]
  · intro c B h hser
    rw [BtrfsCommand.serialize_eq h] at hser
    injection hser with hB
    subst hB
    rw [bufCalc_frame]
    rfl
  · intro len k crc data
    rw [BtrfsCommandBuf.validate_crc32, bufCalc_frame, get_crc32_frame, beq_iff_eq]
    exact eq_comm

/-- C6 witness: the convention evaluated at a concrete WRITE frame and a
concrete END command. -/
theorem crc32_canonical_convention_witness :
    BtrfsCommandBuf.calculate_crc32 ⟨exWriteFrame 9⟩ =
      crc32c 0 ((exWriteFrame 9).take 6 ++ [0, 0, 0, 0] ++ (exWriteFrame 9).drop 10) ∧
    ([7] : List Nat).length = (⟨1, .BTRFS_SEND_C_END, 0, [7]⟩ : BtrfsCommand).len ∧
    BtrfsCommand.calculate_crc32 ⟨1, .BTRFS_SEND_C_END, 0, [7]⟩ =
      some (crc32c 0 (leU32 1 ++ leU16 (btrfsCommandTypeToU16 .BTRFS_SEND_C_END) ++
        [0, 0, 0, 0] ++ [7])) ∧
    (BtrfsCommandBuf.validate_crc32 ⟨leU32 1 ++ leU16 15 ++ leU32 0 ++ [9]⟩ = true ↔
      0 % 2 ^ 32 = crc32c 0 (leU32 1 ++ leU16 15 ++ [0, 0, 0, 0] ++ [9])) :=
  ⟨crc32_canonical_convention.1 (exWriteFrame 9), by decide,
    crc32_canonical_convention.2.1 ⟨1, .BTRFS_SEND_C_END, 0, [7]⟩ (by decide),
    crc32_canonical_convention.2.2.2.2 1 15 0 [9]⟩

/-- C10: from_kind builds a command whose len is the payload length,
whose kind and data are the given ones, and whose crc32 field is its own
canonical CRC, so validate_crc32 returns true on it; consequently the
commands built by BtrfsSubvol::encap and BtrfsSnapshot::encap carry a
valid CRC. The length bounds reflect the u32 len field and the u16 TLV
length field of the wire format. -/
theorem from_kind_builds_valid_commands :
    (∀ (kind : BtrfsCommandType) (data : List Nat), data.length < 2 ^ 32 →
      ∃ c : BtrfsCommand, BtrfsCommand.from_kind kind data = some c ∧
        c.len = data.length ∧ c.kind = kind ∧ c.data = data ∧
        c.crc32 = c.calcCrcVal ∧ c.validate_crc32 = some true) ∧
    (∀ s : BtrfsSubvol, s.uuid.bytes.length = 16 → s.name.length < 2 ^ 16 →
      (s.encap).bind BtrfsCommand.validate_crc32 = some true) ∧
    (∀ s : BtrfsSnapshot, s.uuid.bytes.length = 16 → s.clone_uuid.bytes.length = 16 →
      s.name.length < 2 ^ 16 →
      (s.encap).bind BtrfsCommand.validate_crc32 = some true) := by
  refine ⟨?_, ?_, ?_⟩
  · intro kind data h
    refine ⟨_, from_kind_spec kind data h, rfl, rfl, rfl, ?_, ?_⟩
    · simp [BtrfsCommand.calcCrcVal]
    · have hv := from_kind_validate kind data h
      rw [from_kind_spec kind data h] at hv
      simpa using hv
  · intro s huuid hname
    rw [subvol_encap_eq s huuid]
    refine from_kind_validate _ _ ?_
    simp [tlv_push, leU16, leU64, huuid]
    omega
  · intro s huuid hclone hname
    rw [snapshot_encap_eq s huuid hclone]
    refine from_kind_validate _ _ ?_
    simp [tlv_push, leU16, leU64, huuid, hclone]
    omega

/-- C10 witness: a command built from kind END and payload of one byte,
and the two example encapsulations, all carry a valid CRC. -/
theorem from_kind_builds_valid_commands_witness :
    (BtrfsCommand.from_kind .BTRFS_SEND_C_END [7]).bind BtrfsCommand.validate_crc32 =
      some true ∧
    (exSubvol.encap).bind BtrfsCommand.validate_crc32 = some true ∧
    (exSnapshot.encap).bind BtrfsCommand.validate_crc32 = some true := by
  refine ⟨?_, ?_, ?_⟩
  · obtain ⟨c, hc, -, -, -, -, hv⟩ :=
      from_kind_builds_valid_commands.1 .BTRFS_SEND_C_END [7] (by decide)
    rw [hc]
    simpa using hv
  · exact from_kind_builds_valid_commands.2.1 exSubvol (by decide) (by decide)
  · exact from_kind_builds_valid_commands.2.2 exSnapshot (by decide) (by decide) (by decide)

set_option maxRecDepth 8000 in
/-- C5 counterexample: serialize recomputes the CRC field on a clone, so
for the command exCmdBadCrc, whose stored crc32 field 1 is not canonical,
parsing the bytes produced by serialize does not give back the command:
parse(serialize(C)) differs from C. -/
theorem parse_serialize_not_identity :
    (exCmdBadCrc.serialize.map BtrfsCommand.parse) ≠
      some (.ok (exCmdBadCrc, [])) := by decide

/-- C5 amended: round-trip framing holds for commands whose len field
equals the payload length (serialize panics otherwise) and whose crc32
field is canonical: parse after serialize is the identity on those, and
serialize after parse reproduces any well-formed frame byte string
(10-byte header with recognized kind, length field matching the payload
length, canonical CRC) byte for byte. -/
theorem roundtrip_framing_amended :
    (∀ c : BtrfsCommand, c.data.length = c.len → c.len < 2 ^ 32 →
      c.crc32 = c.calcCrcVal →
      c.serialize = some (leU32 c.len ++ leU16 (btrfsCommandTypeToU16 c.kind) ++
        leU32 c.crc32 ++ c.data) ∧
      BtrfsCommand.parse (leU32 c.len ++ leU16 (btrfsCommandTypeToU16 c.kind) ++
        leU32 c.crc32 ++ c.data) = .ok (c, [])) ∧
    (∀ (len k crc : Nat) (data : List Nat) (kind : BtrfsCommandType),
      data.length = len → len < 2 ^ 32 → btrfsCommandTypeFromU16 k = some kind →
      crc = crc32c 0 (leU32 len ++ leU16 k ++ [0, 0, 0, 0] ++ data) →
      BtrfsCommand.parse (leU32 len ++ leU16 k ++ leU32 crc ++ data) =
        .ok ({ len := len, kind := kind, crc32 := crc, data := data }, []) ∧
      BtrfsCommand.serialize { len := len, kind := kind, crc32 := crc, data := data } =
        some (leU32 len ++ leU16 k ++ leU32 crc ++ data)) := by
  constructor
  · intro c hdl hlen hcrc
    refine ⟨?_, ?_⟩
    · rw [BtrfsCommand.serialize_eq hdl, hcrc]
    · have hp := @BtrfsCommand.parse_append c.len (btrfsCommandTypeToU16 c.kind)
        c.crc32 c.data [] c.kind hdl hlen (toU16_lt c.kind)
        (by rw [hcrc]; exact crc32c_lt 0 _) (fromU16_toU16 c.kind)
      simpa using hp
  · intro len k crc data kind hdl hlen hfk hcanon
    have hk : k < 2 ^ 16 := by
      rw [← toU16_fromU16 hfk]
      exact toU16_lt kind
    have hcrclt : crc < 2 ^ 32 := by
      rw [hcanon]
      exact crc32c_lt 0 _
    refine ⟨?_, ?_⟩
    · have hp := @BtrfsCommand.parse_append len k crc data [] kind hdl hlen hk hcrclt hfk
      simpa using hp
    · rw [BtrfsCommand.serialize_eq hdl]
      have hval : BtrfsCommand.calcCrcVal
          { len := len, kind := kind, crc32 := crc, data := data } = crc := by
        rw [hcanon, BtrfsCommand.calcCrcVal, toU16_fromU16 hfk]
      rw [hval, toU16_fromU16 hfk]

set_option maxRecDepth 8000 in
/-- C5 witness: both round-trip directions evaluated at a concrete END
command with canonical CRC and its wire frame. -/
theorem roundtrip_framing_amended_witness :
    ([7] : List Nat).length = (⟨1, .BTRFS_SEND_C_END, 302219413, [7]⟩ : BtrfsCommand).len ∧
    (⟨1, .BTRFS_SEND_C_END, 302219413, [7]⟩ : BtrfsCommand).crc32 =
      (⟨1, .BTRFS_SEND_C_END, 302219413, [7]⟩ : BtrfsCommand).calcCrcVal ∧
    BtrfsCommand.parse (leU32 1 ++ leU16 (btrfsCommandTypeToU16 .BTRFS_SEND_C_END) ++
      leU32 302219413 ++ [7]) = .ok (⟨1, .BTRFS_SEND_C_END, 302219413, [7]⟩, []) ∧
    BtrfsCommand.serialize ⟨1, .BTRFS_SEND_C_END, 302219413, [7]⟩ =
      some (leU32 1 ++ leU16 21 ++ leU32 302219413 ++ [7]) :=
  ⟨by decide, by decide,
    (roundtrip_framing_amended.1 ⟨1, .BTRFS_SEND_C_END, 302219413, [7]⟩
      (by decide) (by decide) (by decide)).2,
    (roundtrip_framing_amended.2 1 21 302219413 [7] .BTRFS_SEND_C_END
      (by decide) (by decide) (by decide) (by decide)).2⟩

/-- C8 counterexample: header parse does not check the version: on the
magic followed by little-endian version 2 it returns the header with
version 2 instead of the InvalidVersion error the claim requires. -/
theorem header_parse_version_unchecked :
    BtrfsHeader.parse (BTRFS_HEADER_MAGIC ++ leU32 2) = .ok ({ version := 2 }, []) ∧
    BtrfsHeader.parse (BTRFS_HEADER_MAGIC ++ leU32 2) ≠ .error .InvalidVersion := by
  constructor
  · decide
  · decide

/-- C8 amended: header parse reads 13 magic bytes and returns
ProtocolError Invalid magic on any mismatch; it then reads a u32
little-endian version and returns it without checking it; the
InvalidVersion rejection of versions other than 1 is performed by the
command-iterator constructor, not by header parse; and parse after
serialize is the identity on headers. -/
theorem header_parse_amended :
    (∀ (magic rest : List Nat), magic.length = 13 → magic ≠ BTRFS_HEADER_MAGIC →
      BtrfsHeader.parse (magic ++ rest) = .error (.ProtocolError "Invalid magic")) ∧
    (∀ h : BtrfsHeader, h.version < 2 ^ 32 →
      BtrfsHeader.parse h.serialize = .ok (h, [])) ∧
    (∀ (input : List Nat) (ver : Nat) (rest : List Nat),
      BtrfsHeader.parse input = .ok ({ version := ver }, rest) → ver ≠ 1 →
      BtrfsCommandIter.new input = .error .InvalidVersion) ∧
    (∀ (input : List Nat) (rest : List Nat),
      BtrfsHeader.parse input = .ok ({ version := 1 }, rest) →
      BtrfsCommandIter.new input = .ok rest) := by
  refine ⟨?_, ?_, ?_, ?_⟩
  · intro magic rest hlen hne
    rw [BtrfsHeader.parse, readExact_append magic rest hlen]
    simp [hne]
  · intro h hver
    obtain ⟨v⟩ := h
    simp only at hver
    rw [BtrfsHeader.serialize, BtrfsHeader.parse]
    simp only
    rw [@readExact_append 13 BTRFS_HEADER_MAGIC (leU32 v) rfl]
    have hr := readLeU32_append v []
    rw [List.append_nil] at hr
    simp only [hr]
    simp [Nat.mod_eq_of_lt hver]
    omega
  · intro input ver rest hparse hne
    rw [BtrfsCommandIter.new, hparse]
    simp [hne]
  · intro input rest hparse
    rw [BtrfsCommandIter.new, hparse]
    simp

/-- C8 witness: the amended behavior evaluated on a concrete bad magic, a
concrete version-7 header, and concrete version-2 and version-1 streams. -/
theorem header_parse_amended_witness :
    (List.replicate 13 0 : List Nat).length = 13 ∧
    BtrfsHeader.parse (List.replicate 13 0 ++ [1, 0, 0, 0]) =
      .error (.ProtocolError "Invalid magic") ∧
    BtrfsHeader.parse (BtrfsHeader.serialize { version := 7 }) = .ok ({ version := 7 }, []) ∧
    BtrfsCommandIter.new (BTRFS_HEADER_MAGIC ++ leU32 2) = .error .InvalidVersion ∧
    BtrfsCommandIter.new (BTRFS_HEADER_MAGIC ++ leU32 1) = .ok [] :=
  ⟨by decide,
    header_parse_amended.1 (List.replicate 13 0) [1, 0, 0, 0] (by decide) (by decide),
    header_parse_amended.2.1 { version := 7 } (by decide),
    header_parse_amended.2.2.1 (BTRFS_HEADER_MAGIC ++ leU32 2) 2 [] (by decide) (by decide),
    header_parse_amended.2.2.2 (BTRFS_HEADER_MAGIC ++ leU32 1) [] (by decide)⟩

theorem get_kind_frame (len k crc : Nat) (data : List Nat) :
    BtrfsCommandBuf.get_kind ⟨leU32 len ++ leU16 k ++ leU32 crc ++ data⟩ =
      btrfsCommandTypeFromU16 (k % 2 ^ 16) := by
  rw [BtrfsCommandBuf.get_kind]
  show btrfsCommandTypeFromU16
    (decodeLE (((leU32 len ++ leU16 k ++ leU32 crc ++ data).drop 4).take 2)) = _
  have hdrop : (leU32 len ++ leU16 k ++ leU32 crc ++ data).drop 4 =
      (leU16 k ++ leU32 crc) ++ data :=
    @List.drop_left' Nat (leU32 len) ((leU16 k ++ leU32 crc) ++ data) 4 rfl
  have htake : ((leU16 k ++ leU32 crc) ++ data).take 2 = leU16 k :=
    @List.take_left' Nat (leU16 k) (leU32 crc ++ data) 2 rfl
  rw [hdrop, htake, decodeLE_leU16]

theorem validation_hook_other {s : ConcatState} {buf : BtrfsCommandBuf}
    (h1 : buf.get_kind ≠ some .BTRFS_SEND_C_SUBVOL)
    (h2 : buf.get_kind ≠ some .BTRFS_SEND_C_SNAPSHOT) :
    BtrfsCommandConcatIter.validation_hook s buf = some s := by
  simp [BtrfsCommandConcatIter.validation_hook, h1, h2]

theorem current_command_hook_panic {fuel : Nat} {s : ConcatState}
    {input : List Nat} {buf : BtrfsCommandBuf} {rest : List Nat}
    (hreader : s.reader = some input)
    (hread : BtrfsCommandBuf.read input = some (buf, rest))
    (hhook : BtrfsCommandConcatIter.validation_hook
      { s with reader := some rest } buf = none) :
    BtrfsCommandConcatIter.current_command (fuel + 1) s =
      (.panicked, { s with reader := some rest }) := by
  simp only [BtrfsCommandConcatIter.current_command, hreader, hread, hhook]

theorem current_command_parse_panic {fuel : Nat} {s s2 : ConcatState}
    {input : List Nat} {buf : BtrfsCommandBuf} {rest : List Nat}
    (hreader : s.reader = some input)
    (hread : BtrfsCommandBuf.read input = some (buf, rest))
    (hhook : BtrfsCommandConcatIter.validation_hook
      { s with reader := some rest } buf = some s2)
    (hparse : buf.parse = .panicked) :
    BtrfsCommandConcatIter.current_command (fuel + 1) s = (.panicked, s2) := by
  simp only [BtrfsCommandConcatIter.current_command, hreader, hread, hhook, hparse]

theorem next_of_panicked {fuel : Nat} {s s' : ConcatState}
    (h : BtrfsCommandConcatIter.current_command (fuel + 1) s = (.panicked, s')) :
    BtrfsCommandConcatIter.next (fuel + 1) s = (.panicked, s') := by
  simp only [BtrfsCommandConcatIter.next, h]

/-- C9 counterexample: a frame whose kind field 23 is not a defined
command kind makes the concat engine panic during its per-frame
processing (the typed parse inside current_command unwraps the unknown
kind), so pass-through handling does not succeed there. -/
theorem unknown_kind_concat_aborts :
    (BtrfsCommandConcatIter.next 2 exStateUnknown).1 = CCRes.panicked ∧
    BtrfsCommandBuf.get_kind ⟨exUnknownFrame⟩ = none := by
  constructor
  · decide
  · decide

/-- C9 amended: raw-buffer operations tolerate a frame with an undefined
kind without destructuring it: reading the frame succeeds and never
inspects the kind, get_kind returns none rather than failing, the CRC
computation is the blanked-field convention, and re-emission returns the
exact bytes; but the concat engine destructures every fetched frame
through the typed parse, which panics on an unknown kind, so its
per-frame processing aborts instead of passing the frame through. -/
theorem unknown_kind_passthrough_amended :
    (∀ (len k crc : Nat) (data rest : List Nat), data.length = len → len < 2 ^ 32 →
      BtrfsCommandBuf.read (leU32 len ++ leU16 k ++ leU32 crc ++ data ++ rest) =
        some (⟨leU32 len ++ leU16 k ++ leU32 crc ++ data⟩, rest)) ∧
    (∀ (len k crc : Nat) (data : List Nat), 23 ≤ k → k < 2 ^ 16 →
      BtrfsCommandBuf.get_kind ⟨leU32 len ++ leU16 k ++ leU32 crc ++ data⟩ = none) ∧
    (∀ (len k crc : Nat) (data : List Nat),
      BtrfsCommandBuf.as_slice ⟨leU32 len ++ leU16 k ++ leU32 crc ++ data⟩ =
        leU32 len ++ leU16 k ++ leU32 crc ++ data ∧
      BtrfsCommandBuf.validate_crc32 ⟨leU32 len ++ leU16 k ++ leU32 crc ++ data⟩ =
        (crc32c 0 (leU32 len ++ leU16 k ++ [0, 0, 0, 0] ++ data) == crc % 2 ^ 32)) ∧
    (∀ (len k crc : Nat) (data rest : List Nat), data.length = len → len < 2 ^ 32 →
      23 ≤ k → k < 2 ^ 16 →
      BtrfsCommand.parse (leU32 len ++ leU16 k ++ leU32 crc ++ data ++ rest) =
        .panicked) ∧
    (∀ (fuel : Nat) (s : ConcatState) (input : List Nat) (buf : BtrfsCommandBuf)
      (rest : List Nat),
      s.reader = some input → BtrfsCommandBuf.read input = some (buf, rest) →
      buf.get_kind = none → buf.parse = .panicked →
      (BtrfsCommandConcatIter.next (fuel + 1) s).1 = CCRes.panicked) := by
  refine ⟨?_, ?_, ?_, ?_, ?_⟩
  · intro len k crc data rest hdl hlen
    exact @BtrfsCommandBuf.read_append len (leU16 k ++ leU32 crc ++ data) rest
      (by simp [leU16, leU32, hdl]; omega) hlen
  · intro len k crc data h23 hk
    rw [get_kind_frame, Nat.mod_eq_of_lt hk]
    exact fromU16_eq_none h23
  · intro len k crc data
    refine ⟨rfl, ?_⟩
    rw [BtrfsCommandBuf.validate_crc32, bufCalc_frame, get_crc32_frame]
  · intro len k crc data rest hdl hlen h23 hk
    exact @BtrfsCommand.parse_append_unknown len k crc data rest hdl hlen hk
      (fromU16_eq_none h23)
  · intro fuel s input buf rest hreader hread hkind hparse
    have hhook : BtrfsCommandConcatIter.validation_hook
        { s with reader := some rest } buf = some { s with reader := some rest } :=
      validation_hook_other (by rw [hkind]; exact Option.noConfusion)
        (by rw [hkind]; exact Option.noConfusion)
    rw [next_of_panicked (current_command_parse_panic hreader hread hhook hparse)]

/-- C9 witness: the amended behavior evaluated at the concrete empty
frame of kind 23 and the concrete state about to fetch it. -/
theorem unknown_kind_passthrough_amended_witness :
    BtrfsCommandBuf.read (leU32 0 ++ leU16 23 ++ leU32 0 ++ [] ++ []) =
      some (⟨leU32 0 ++ leU16 23 ++ leU32 0 ++ []⟩, []) ∧
    BtrfsCommandBuf.get_kind ⟨leU32 0 ++ leU16 23 ++ leU32 0 ++ []⟩ = none ∧
    BtrfsCommand.parse (leU32 0 ++ leU16 23 ++ leU32 0 ++ [] ++ []) = .panicked ∧
    (BtrfsCommandConcatIter.next (0 + 1) exStateUnknown).1 = CCRes.panicked :=
  ⟨unknown_kind_passthrough_amended.1 0 23 0 [] [] (by decide) (by decide),
    unknown_kind_passthrough_amended.2.1 0 23 0 [] (by decide) (by decide),
    unknown_kind_passthrough_amended.2.2.2.1 0 23 0 [] [] (by decide) (by decide)
      (by decide) (by decide),
    unknown_kind_passthrough_amended.2.2.2.2 0 exStateUnknown exUnknownFrame
      ⟨exUnknownFrame⟩ [] (by decide) (by decide) (by decide) (by decide)⟩

/-- C2: the validation hook of the concat engine enforces chain
continuity: a fetched SNAPSHOT frame whose clone uuid differs from the
current UUID makes the hook panic, and the whole engine step returns a
panic without yielding the frame, so none of its bytes reach the output;
on a match the snapshot uuid becomes the new current UUID; a fetched
SUBVOL frame panics when a current UUID is already held and otherwise
records the subvol uuid. -/
theorem validation_hook_chain_continuity :
    (∀ (s : ConcatState) (buf : BtrfsCommandBuf) (snap : BtrfsSnapshot),
      buf.get_kind = some .BTRFS_SEND_C_SNAPSHOT →
      BtrfsSnapshot.load buf.get_data = .ok snap →
      s.curr_uuid ≠ some snap.clone_uuid →
      BtrfsCommandConcatIter.validation_hook s buf = none) ∧
    (∀ (s : ConcatState) (buf : BtrfsCommandBuf) (snap : BtrfsSnapshot),
      buf.get_kind = some .BTRFS_SEND_C_SNAPSHOT →
      BtrfsSnapshot.load buf.get_data = .ok snap →
      s.curr_uuid = some snap.clone_uuid →
      BtrfsCommandConcatIter.validation_hook s buf =
        some { s with curr_uuid := some snap.uuid }) ∧
    (∀ (s : ConcatState) (buf : BtrfsCommandBuf),
      buf.get_kind = some .BTRFS_SEND_C_SUBVOL → s.curr_uuid.isSome →
      BtrfsCommandConcatIter.validation_hook s buf = none) ∧
    (∀ (s : ConcatState) (buf : BtrfsCommandBuf) (subvol : BtrfsSubvol),
      buf.get_kind = some .BTRFS_SEND_C_SUBVOL →
      BtrfsSubvol.load buf.get_data = .ok subvol → s.curr_uuid = none →
      BtrfsCommandConcatIter.validation_hook s buf =
        some { s with curr_uuid := some subvol.uuid }) ∧
    (∀ (fuel : Nat) (s : ConcatState) (input : List Nat) (buf : BtrfsCommandBuf)
      (rest : List Nat) (snap : BtrfsSnapshot),
      s.reader = some input → BtrfsCommandBuf.read input = some (buf, rest) →
      buf.get_kind = some .BTRFS_SEND_C_SNAPSHOT →
      BtrfsSnapshot.load buf.get_data = .ok snap →
      s.curr_uuid ≠ some snap.clone_uuid →
      (BtrfsCommandConcatIter.next (fuel + 1) s).1 = CCRes.panicked) := by
  have hsnapcase : ∀ (s : ConcatState) (buf : BtrfsCommandBuf) (snap : BtrfsSnapshot),
      buf.get_kind = some .BTRFS_SEND_C_SNAPSHOT →
      BtrfsSnapshot.load buf.get_data = .ok snap →
      s.curr_uuid ≠ some snap.clone_uuid →
      BtrfsCommandConcatIter.validation_hook s buf = none := by
    intro s buf snap hkind hload hne
    simp [BtrfsCommandConcatIter.validation_hook, hkind, hload, hne]
  refine ⟨hsnapcase, ?_, ?_, ?_, ?_⟩
  · intro s buf snap hkind hload heq
    simp [BtrfsCommandConcatIter.validation_hook, hkind, hload, heq]
  · intro s buf hkind hsome
    simp [BtrfsCommandConcatIter.validation_hook, hkind, hsome]
  · intro s buf subvol hkind hload hnone
    simp [BtrfsCommandConcatIter.validation_hook, hkind, hload, hnone]
  · intro fuel s input buf rest snap hreader hread hkind hload hne
    have hhook : BtrfsCommandConcatIter.validation_hook
        { s with reader := some rest } buf = none :=
      hsnapcase _ buf snap hkind hload (by simpa using hne)
    rw [next_of_panicked (current_command_hook_panic hreader hread hhook)]

set_option maxRecDepth 2000 in
/-- C2 witness: the chain-break panic and the uuid recording evaluated at
the concrete snapshot frame with no current UUID held and with the
matching current UUID held. -/
theorem validation_hook_chain_continuity_witness :
    BtrfsCommandBuf.get_kind ⟨exSnapshotFrame⟩ = some .BTRFS_SEND_C_SNAPSHOT ∧
    BtrfsSnapshot.load (BtrfsCommandBuf.get_data ⟨exSnapshotFrame⟩) = .ok exSnapshot ∧
    BtrfsCommandConcatIter.validation_hook exStateSnapMismatch ⟨exSnapshotFrame⟩ = none ∧
    BtrfsCommandConcatIter.validation_hook
      { exStateSnapMismatch with curr_uuid := some (exUuid 1) } ⟨exSnapshotFrame⟩ =
      some { exStateSnapMismatch with curr_uuid := some (exUuid 2) } ∧
    (BtrfsCommandConcatIter.next (0 + 1) exStateSnapMismatch).1 = CCRes.panicked := by
  refine ⟨by decide, by decide, ?_, ?_, ?_⟩
  · exact validation_hook_chain_continuity.1 exStateSnapMismatch ⟨exSnapshotFrame⟩
      exSnapshot (by decide) (by decide) (by decide)
  · exact validation_hook_chain_continuity.2.1
      { exStateSnapMismatch with curr_uuid := some (exUuid 1) } ⟨exSnapshotFrame⟩
      exSnapshot (by decide) (by decide) (by decide)
  · exact validation_hook_chain_continuity.2.2.2.2 0 exStateSnapMismatch
      exSnapshotFrame ⟨exSnapshotFrame⟩ [] exSnapshot (by decide) (by decide)
      (by decide) (by decide) (by decide)

set_option maxRecDepth 2000 in
/-- C3 code_bug evidence: with the active reader at a clean end of file,
one unopened path queued and the saved last reader still set,
current_command surfaces the EOF to the consumer as ReadError(EndOfFile)
and performs no rotation (the state, including the queued path and the
saved last reader, is unchanged): the source checks for EOF only on the
in-memory parse of an already complete frame, which can never hit EOF,
so the rotation and promotion branch is unreachable, contradicting the
claimed clean-EOF handling. -/
theorem clean_eof_surfaced_as_read_error :
    BtrfsCommandConcatIter.current_command 4 exStateEof =
      (.errRes (.ReadError .EndOfFile), exStateEof) ∧
    exStateEof.reader = some [] ∧
    exStateEof.paths = [exPathOne] ∧
    exStateEof.last_reader.isSome = true ∧
    (BtrfsCommandConcatIter.next 4 exStateEof).1 =
      CCRes.errRes (.ReadError .EndOfFile) := by
  refine ⟨by decide, rfl, rfl, rfl, by decide⟩

set_option maxRecDepth 4000 in
/-- C1 code_bug evidence: on the well-formed, correctly chained two-file
input of spec section 8 scenario 3, the engine adopts the tail snapshot
name into the head SUBVOL (the first emitted frame decodes to name B
with the head subvol uuid) but then, at the clean end of the head file,
write_out stops with ReadError(EndOfFile): the emitted frames are one
SUBVOL and one WRITE, the tail file is never replayed and no END command
is ever emitted, contradicting the claimed output shape. -/
theorem concat_engine_never_emits_end :
    exConcatRun = some (.errOut (.ReadError .EndOfFile),
      [some .BTRFS_SEND_C_SUBVOL, some .BTRFS_SEND_C_WRITE]) ∧
    exConcatFirstFrame = some (some { name := [66], uuid := exUuid 1, ctransid := 7 }) ∧
    (exConcatRun.map (fun r => r.2.count (some .BTRFS_SEND_C_END))) = some 0 := by
  refine ⟨by decide, by decide, by decide⟩

/-- C7 counterexample: a readable directory entry whose first command is
a WRITE does not get skipped: from_btrfs_command panics on any kind
other than SUBVOL and SNAPSHOT, so the whole load aborts instead of
never failing. -/
theorem load_aborts_on_other_first_command :
    get_first_command (exHeader1 ++ exWriteFrame 9) =
      .ok { len := 1, kind := .BTRFS_SEND_C_WRITE, crc32 := 0, data := [9] } ∧
    Repository.load [] [exEntryWrite] = none := by
  constructor
  · decide
  · decide

/-- C7 amended: load classifies a SUBVOL first command as a Full node
and a SNAPSHOT as an Incremental node; an entry that cannot be opened,
or whose header or first command yields an error result (bad magic,
short file, wrong version), is skipped; but a first command that parses
to any other kind, and any panic while fetching the first command, abort
the whole load; the in-tree load takes no fsck parameter and always
prunes the orphans from the returned node list, while the loader used
with fsck disabled (load_from_nofsck, absent from the tree and modelled
from the spec) returns every node. -/
theorem repository_load_amended :
    (∀ (path : List Nat) (cmd : BtrfsCommand) (subvol : BtrfsSubvol),
      cmd.kind = .BTRFS_SEND_C_SUBVOL → BtrfsSubvol.parse cmd.data = .ok subvol →
      BackupNode.from_btrfs_command path cmd =
        some { kind := .FullBackup subvol, uuid := subvol.uuid, parent_uuid := none,
               path := path, name := subvol.name }) ∧
    (∀ (path : List Nat) (cmd : BtrfsCommand) (snap : BtrfsSnapshot),
      cmd.kind = .BTRFS_SEND_C_SNAPSHOT → BtrfsSnapshot.parse cmd.data = .ok snap →
      BackupNode.from_btrfs_command path cmd =
        some { kind := .IncrementalBackup snap, uuid := snap.uuid,
               parent_uuid := some snap.clone_uuid, path := path, name := snap.name }) ∧
    (∀ (path : List Nat) (cmd : BtrfsCommand),
      cmd.kind ≠ .BTRFS_SEND_C_SUBVOL → cmd.kind ≠ .BTRFS_SEND_C_SNAPSHOT →
      BackupNode.from_btrfs_command path cmd = none) ∧
    (∀ (entry : DirEntry) (rest : List DirEntry), entry.content = none →
      Repository.loadNodes (entry :: rest) = Repository.loadNodes rest) ∧
    (∀ (entry : DirEntry) (rest : List DirEntry) (bytes : List Nat)
      (e : BtrfsParseError), entry.content = some bytes →
      get_first_command bytes = .err e →
      Repository.loadNodes (entry :: rest) = Repository.loadNodes rest) ∧
    (∀ (entry : DirEntry) (rest : List DirEntry) (bytes : List Nat),
      entry.content = some bytes → get_first_command bytes = .panicked →
      Repository.loadNodes (entry :: rest) = none) ∧
    (∀ (entry : DirEntry) (rest : List DirEntry) (bytes : List Nat)
      (cmd : BtrfsCommand), entry.content = some bytes →
      get_first_command bytes = .ok cmd →
      BackupNode.from_btrfs_command entry.path cmd = none →
      Repository.loadNodes (entry :: rest) = none) ∧
    (∀ (root : List Nat) (entries : List DirEntry) (nodes : List BackupNode),
      Repository.loadNodes entries = some nodes →
      Repository.load root entries = some
        { root := root,
          nodes := nodes.filter
            (fun n => n.uuid ∉ Repository.find_orphans nodes) } ∧
      Repository.load_from_nofsck root entries = some { root := root, nodes := nodes }) := by
  refine ⟨?_, ?_, ?_, ?_, ?_, ?_, ?_, ?_⟩
  · intro path cmd subvol hk hp
    simp [BackupNode.from_btrfs_command, hk, hp]
  · intro path cmd snap hk hp
    simp [BackupNode.from_btrfs_command, hk, hp]
  · intro path cmd h1 h2
    cases hk : cmd.kind <;>
      first
        | exact absurd hk h1
        | exact absurd hk h2
        | simp [BackupNode.from_btrfs_command, hk]
  · intro entry rest hnone
    simp [Repository.loadNodes, hnone]
  · intro entry rest bytes e hsome herr
    simp [Repository.loadNodes, hsome, herr]
  · intro entry rest bytes hsome hpanic
    simp [Repository.loadNodes, hsome, hpanic]
  · intro entry rest bytes cmd hsome hok hnode
    simp [Repository.loadNodes, hsome, hok, hnode]
  · intro root entries nodes hnodes
    constructor
    · simp [Repository.load, hnodes]
    · simp [Repository.load_from_nofsck, hnodes]

/-- C7 witness: the amended loader behavior evaluated at concrete
entries: a WRITE first command panics, an unopenable entry and a
non-stream entry are skipped, and the two loaders agree on the empty
directory. -/
theorem repository_load_amended_witness :
    BackupNode.from_btrfs_command [1]
      { len := 1, kind := .BTRFS_SEND_C_WRITE, crc32 := 0, data := [9] } = none ∧
    Repository.loadNodes [⟨[2], none⟩] = Repository.loadNodes [] ∧
    Repository.loadNodes [⟨[3], some [9, 9]⟩] = Repository.loadNodes [] ∧
    Repository.load [] [] = some { root := [], nodes := [] } ∧
    Repository.load_from_nofsck [] [] = some { root := [], nodes := [] } :=
  ⟨repository_load_amended.2.2.1 [1]
      { len := 1, kind := .BTRFS_SEND_C_WRITE, crc32 := 0, data := [9] }
      (by decide) (by decide),
    repository_load_amended.2.2.2.1 ⟨[2], none⟩ [] rfl,
    repository_load_amended.2.2.2.2.1 ⟨[3], some [9, 9]⟩ [] [9, 9]
      (.ReadError .EndOfFile) rfl (by decide),
    (repository_load_amended.2.2.2.2.2.2.2 [] [] [] rfl).1,
    (repository_load_amended.2.2.2.2.2.2.2 [] [] [] rfl).2⟩

/-! # The find_orphans fixpoint: pass lemmas -/

theorem fsckPass_map_uuid (root : Finset Uuid) (records : List FsckReachabilityRecord) :
    ((fsckPass root records).records).map (·.uuid) = records.map (·.uuid) := by
  induction records generalizing root with
  | nil => rfl
  | cons r rest ih =>
    by_cases h1 : r.is_reachable
    · simp [fsckPass, h1, ih]
    · by_cases h2 : r.parent_uuid ∈ root
      · simp [fsckPass, h1, h2, ih]
      · simp [fsckPass, h1, h2, ih]

theorem fsckPass_root_subset (root : Finset Uuid)
    (records : List FsckReachabilityRecord) :
    root ⊆ (fsckPass root records).root_reachable := by
  induction records generalizing root with
  | nil => simp [fsckPass]
  | cons r rest ih =>
    by_cases h1 : r.is_reachable
    · simpa [fsckPass, h1] using ih root
    · by_cases h2 : r.parent_uuid ∈ root
      · simp only [fsckPass, h1, h2]
        simp only [Bool.false_eq_true, if_false, if_true]
        exact (Finset.subset_insert r.uuid root).trans (ih (insert r.uuid root))
      · simpa [fsckPass, h1, h2] using ih root

theorem fsckPass_root_mem (root : Finset Uuid)
    (records : List FsckReachabilityRecord) :
    ∀ u ∈ (fsckPass root records).root_reachable,
      u ∈ root ∨ ∃ r ∈ records, r.uuid = u := by
  induction records generalizing root with
  | nil =>
    intro u hu
    simp [fsckPass] at hu
    exact Or.inl hu
  | cons r rest ih =>
    intro u hu
    by_cases h1 : r.is_reachable
    · simp only [fsckPass, h1, if_true] at hu
      rcases ih root u hu with h | ⟨r2, hr2, he⟩
      · exact Or.inl h
      · exact Or.inr ⟨r2, List.mem_cons_of_mem r hr2, he⟩
    · by_cases h2 : r.parent_uuid ∈ root
      · simp only [fsckPass, h1, h2, Bool.false_eq_true, if_false, if_true] at hu
        rcases ih (insert r.uuid root) u hu with h | ⟨r2, hr2, he⟩
        · rcases Finset.mem_insert.mp h with h | h
          · exact Or.inr ⟨r, List.mem_cons_self r rest, h.symm⟩
          · exact Or.inl h
        · exact Or.inr ⟨r2, List.mem_cons_of_mem r hr2, he⟩
      · simp only [fsckPass, h1, h2, Bool.false_eq_true, if_false] at hu
        rcases ih root u hu with h | ⟨r2, hr2, he⟩
        · exact Or.inl h
        · exact Or.inr ⟨r2, List.mem_cons_of_mem r hr2, he⟩

theorem fsckPass_edges {nodes : List BackupNode} (root : Finset Uuid)
    (records : List FsckReachabilityRecord)
    (h : ∀ r ∈ records, EdgeOf nodes r) :
    ∀ r ∈ (fsckPass root records).records, EdgeOf nodes r := by
  induction records generalizing root with
  | nil => simp [fsckPass]
  | cons r rest ih =>
    have hhead := h r (List.mem_cons_self r rest)
    have htail : ∀ r2 ∈ rest, EdgeOf nodes r2 :=
      fun r2 hr2 => h r2 (List.mem_cons_of_mem r hr2)
    intro r' hr'
    by_cases h1 : r.is_reachable
    · simp only [fsckPass, h1, if_true, List.mem_cons] at hr'
      rcases hr' with rfl | hr'
      · exact hhead
      · exact ih root htail r' hr'
    · by_cases h2 : r.parent_uuid ∈ root
      · simp only [fsckPass, h1, h2, Bool.false_eq_true, if_false, if_true,
          List.mem_cons] at hr'
        rcases hr' with rfl | hr'
        · obtain ⟨n, hn, he1, he2⟩ := hhead
          exact ⟨n, hn, he1, he2⟩
        · exact ih (insert r.uuid root) htail r' hr'
      · simp only [fsckPass, h1, h2, Bool.false_eq_true, if_false, List.mem_cons] at hr'
        rcases hr' with rfl | hr'
        · exact hhead
        · exact ih root htail r' hr'

theorem fsckPass_sound {nodes : List BackupNode} (root : Finset Uuid)
    (records : List FsckReachabilityRecord)
    (hroot : ∀ u ∈ root, RootReach nodes u)
    (hrec : ∀ r ∈ records, EdgeOf nodes r) :
    ∀ u ∈ (fsckPass root records).root_reachable, RootReach nodes u := by
  induction records generalizing root with
  | nil => simpa [fsckPass] using hroot
  | cons r rest ih =>
    have hhead := hrec r (List.mem_cons_self r rest)
    have htail : ∀ r2 ∈ rest, EdgeOf nodes r2 :=
      fun r2 hr2 => hrec r2 (List.mem_cons_of_mem r hr2)
    intro u hu
    by_cases h1 : r.is_reachable
    · simp only [fsckPass, h1, if_true] at hu
      exact ih root hroot htail u hu
    · by_cases h2 : r.parent_uuid ∈ root
      · simp only [fsckPass, h1, h2, Bool.false_eq_true, if_false, if_true] at hu
        refine ih (insert r.uuid root) ?_ htail u hu
        intro v hv
        rcases Finset.mem_insert.mp hv with rfl | hv
        · obtain ⟨n, hn, he1, he2⟩ := hhead
          exact he1 ▸ RootReach.step n r.parent_uuid hn he2 (hroot _ h2)
        · exact hroot v hv
      · simp only [fsckPass, h1, h2, Bool.false_eq_true, if_false] at hu
        exact ih root hroot htail u hu

theorem fsckPass_marked_in (root : Finset Uuid)
    (records : List FsckReachabilityRecord)
    (h : ∀ r ∈ records, r.is_reachable = true → r.uuid ∈ root) :
    ∀ r ∈ (fsckPass root records).records, r.is_reachable = true →
      r.uuid ∈ (fsckPass root records).root_reachable := by
  induction records generalizing root with
  | nil => simp [fsckPass]
  | cons r rest ih =>
    have htail : ∀ r2 ∈ rest, r2.is_reachable = true → r2.uuid ∈ root :=
      fun r2 hr2 => h r2 (List.mem_cons_of_mem r hr2)
    intro r' hr' hmark
    by_cases h1 : r.is_reachable
    · simp only [fsckPass, h1, if_true, List.mem_cons] at hr' ⊢
      rcases hr' with rfl | hr'
      · exact fsckPass_root_subset root rest (h r' (List.mem_cons_self r' rest) hmark)
      · exact ih root htail r' hr' hmark
    · by_cases h2 : r.parent_uuid ∈ root
      · simp only [fsckPass, h1, h2, Bool.false_eq_true, if_false, if_true,
          List.mem_cons] at hr' ⊢
        rcases hr' with rfl | hr'
        · exact fsckPass_root_subset (insert r.uuid root) rest
            (Finset.mem_insert_self r.uuid root)
        · refine ih (insert r.uuid root) ?_ r' hr' hmark
          intro r2 hr2 hm2
          exact Finset.mem_insert_of_mem (htail r2 hr2 hm2)
      · simp only [fsckPass, h1, h2, Bool.false_eq_true, if_false, List.mem_cons] at hr' ⊢
        rcases hr' with rfl | hr'
        · exact absurd hmark h1
        · exact ih root htail r' hr' hmark

theorem fsckPass_unmarked_not_in (root : Finset Uuid)
    (records : List FsckReachabilityRecord)
    (hnodup : (records.map (·.uuid)).Nodup)
    (h : ∀ r ∈ records, r.is_reachable = false → r.uuid ∉ root) :
    ∀ r ∈ (fsckPass root records).records, r.is_reachable = false →
      r.uuid ∉ (fsckPass root records).root_reachable := by
  induction records generalizing root with
  | nil => simp [fsckPass]
  | cons r rest ih =>
    have hnodup2 : (rest.map (·.uuid)).Nodup := (List.nodup_cons.mp hnodup).2
    have hheadout : r.uuid ∉ rest.map (·.uuid) := (List.nodup_cons.mp hnodup).1
    have htail : ∀ r2 ∈ rest, r2.is_reachable = false → r2.uuid ∉ root :=
      fun r2 hr2 => h r2 (List.mem_cons_of_mem r hr2)
    intro r' hr' hunmark
    by_cases h1 : r.is_reachable
    · simp only [fsckPass, h1, if_true, List.mem_cons] at hr' ⊢
      rcases hr' with rfl | hr'
      · rw [hunmark] at h1
        exact absurd h1 (by simp)
      · exact ih root hnodup2 htail r' hr' hunmark
    · by_cases h2 : r.parent_uuid ∈ root
      · simp only [fsckPass, h1, h2, Bool.false_eq_true, if_false, if_true,
          List.mem_cons] at hr' ⊢
        rcases hr' with rfl | hr'
        · simp at hunmark
        · refine ih (insert r.uuid root) hnodup2 ?_ r' hr' hunmark
          intro r2 hr2 hu2 hmem
          rcases Finset.mem_insert.mp hmem with heq | hmem
          · exact hheadout (heq ▸ List.mem_map_of_mem (·.uuid) hr2)
          · exact htail r2 hr2 hu2 hmem
      · simp only [fsckPass, h1, h2, Bool.false_eq_true, if_false, List.mem_cons] at hr' ⊢
        rcases hr' with rfl | hr'
        · intro hmem
          rcases fsckPass_root_mem root rest _ hmem with hin | ⟨r2, hr2, he⟩
          · exact h r' (List.mem_cons_self r' rest) hunmark hin
          · exact hheadout (he ▸ List.mem_map_of_mem (·.uuid) hr2)
        · exact ih root hnodup2 htail r' hr' hunmark

theorem fsckPass_tracked (root : Finset Uuid)
    (records : List FsckReachabilityRecord) :
    ∀ r ∈ records, r.is_reachable = false →
      (∃ r' ∈ (fsckPass root records).records,
        r'.uuid = r.uuid ∧ r'.parent_uuid = r.parent_uuid ∧ r'.is_reachable = false) ∨
      r.uuid ∈ (fsckPass root records).root_reachable := by
  induction records generalizing root with
  | nil => simp
  | cons r0 rest ih =>
    intro r hr hun
    by_cases h1 : r0.is_reachable
    · simp only [fsckPass, h1, if_true, List.mem_cons]
      rcases List.mem_cons.mp hr with rfl | hr
      · rw [hun] at h1
        exact absurd h1 (by simp)
      · rcases ih root r hr hun with ⟨r', hr', hprops⟩ | hmem
        · exact Or.inl ⟨r', Or.inr hr', hprops⟩
        · exact Or.inr hmem
    · by_cases h2 : r0.parent_uuid ∈ root
      · simp only [fsckPass, h1, h2, Bool.false_eq_true, if_false, if_true,
          List.mem_cons]
        rcases List.mem_cons.mp hr with rfl | hr
        · exact Or.inr (fsckPass_root_subset (insert r.uuid root) rest
            (Finset.mem_insert_self r.uuid root))
        · rcases ih (insert r0.uuid root) r hr hun with ⟨r', hr', hprops⟩ | hmem
          · exact Or.inl ⟨r', Or.inr hr', hprops⟩
          · exact Or.inr hmem
      · simp only [fsckPass, h1, h2, Bool.false_eq_true, if_false, List.mem_cons]
        rcases List.mem_cons.mp hr with rfl | hr
        · refine Or.inl ⟨r, Or.inl rfl, rfl, rfl, ?_⟩
          simpa using h1
        · rcases ih root r hr hun with ⟨r', hr', hprops⟩ | hmem
          · exact Or.inl ⟨r', Or.inr hr', hprops⟩
          · exact Or.inr hmem

theorem fsckPass_not_changed (root : Finset Uuid)
    (records : List FsckReachabilityRecord)
    (h : (fsckPass root records).changed = false) :
    (fsckPass root records).root_reachable = root ∧
    (fsckPass root records).records = records ∧
    ∀ r ∈ records, r.is_reachable = false → r.parent_uuid ∉ root := by
  induction records generalizing root with
  | nil => simp [fsckPass]
  | cons r rest ih =>
    by_cases h1 : r.is_reachable
    · simp only [fsckPass, h1, if_true] at h ⊢
      obtain ⟨ha, hb, hc⟩ := ih root h
      refine ⟨ha, by rw [hb], ?_⟩
      intro r2 hr2 hun
      rcases List.mem_cons.mp hr2 with rfl | hr2
      · rw [hun] at h1
        exact absurd h1 (by simp)
      · exact hc r2 hr2 hun
    · by_cases h2 : r.parent_uuid ∈ root
      · exfalso
        simp [fsckPass, h1, h2] at h
      · simp only [fsckPass, h1, h2, Bool.false_eq_true, if_false] at h ⊢
        obtain ⟨ha, hb, hc⟩ := ih root h
        refine ⟨ha, by rw [hb], ?_⟩
        intro r2 hr2 hun
        rcases List.mem_cons.mp hr2 with rfl | hr2
        · exact h2
        · exact hc r2 hr2 hun

theorem recUnmarked_cons (r : FsckReachabilityRecord)
    (l : List FsckReachabilityRecord) :
    recUnmarked (r :: l) = (if r.is_reachable then 0 else 1) + recUnmarked l := by
  by_cases h : r.is_reachable <;> simp [recUnmarked, List.filter_cons, h] <;> omega

theorem recUnmarked_filter (records : List FsckReachabilityRecord) :
    recUnmarked (records.filter (fun r => !r.is_reachable)) = recUnmarked records := by
  simp [recUnmarked, List.filter_filter]

theorem fsckPass_unmarked_le (root : Finset Uuid)
    (records : List FsckReachabilityRecord) :
    recUnmarked (fsckPass root records).records ≤ recUnmarked records := by
  induction records generalizing root with
  | nil => simp [fsckPass]
  | cons r rest ih =>
    by_cases h1 : r.is_reachable
    · simp only [fsckPass, h1, if_true]
      rw [recUnmarked_cons, recUnmarked_cons]
      exact Nat.add_le_add_left (ih root) _
    · by_cases h2 : r.parent_uuid ∈ root
      · simp only [fsckPass, h1, h2, Bool.false_eq_true, if_false, if_true]
        rw [recUnmarked_cons, recUnmarked_cons]
        simp only [h1]
        have := ih (insert r.uuid root)
        simp only [if_true, if_false, Bool.false_eq_true]
        omega
      · simp only [fsckPass, h1, h2, Bool.false_eq_true, if_false]
        rw [recUnmarked_cons, recUnmarked_cons]
        exact Nat.add_le_add_left (ih root) _

theorem fsckPass_changed_lt (root : Finset Uuid)
    (records : List FsckReachabilityRecord)
    (h : (fsckPass root records).changed = true) :
    recUnmarked (fsckPass root records).records < recUnmarked records := by
  induction records generalizing root with
  | nil => simp [fsckPass] at h
  | cons r rest ih =>
    by_cases h1 : r.is_reachable
    · simp only [fsckPass, h1, if_true] at h ⊢
      rw [recUnmarked_cons, recUnmarked_cons]
      exact Nat.add_lt_add_left (ih root h) _
    · by_cases h2 : r.parent_uuid ∈ root
      · simp only [fsckPass, h1, h2, Bool.false_eq_true, if_false, if_true]
        rw [recUnmarked_cons, recUnmarked_cons]
        simp only [h1, Bool.false_eq_true, if_false]
        have hle := fsckPass_unmarked_le (insert r.uuid root) rest
        simp only [if_true]
        omega
      · simp only [fsckPass, h1, h2, Bool.false_eq_true, if_false] at h ⊢
        rw [recUnmarked_cons, recUnmarked_cons]
        exact Nat.add_lt_add_left (ih root h) _

/-! # The find_orphans fixpoint: seeding lemmas -/

theorem fsckInit_records_unmarked (nodes : List BackupNode) :
    ∀ r ∈ (fsckInit nodes).2, r.is_reachable = false := by
  induction nodes with
  | nil => simp [fsckInit]
  | cons n rest ih =>
    intro r hr
    cases hp : n.parent_uuid with
    | none =>
      simp only [fsckInit, FsckReachabilityRecord.from_node, hp, Option.map_none'] at hr
      exact ih r hr
    | some p =>
      simp only [fsckInit, FsckReachabilityRecord.from_node, hp, Option.map_some',
        List.mem_cons] at hr
      rcases hr with rfl | hr
      · rfl
      · exact ih r hr

theorem fsckInit_root_mem (nodes : List BackupNode) :
    ∀ u ∈ (fsckInit nodes).1, ∃ n ∈ nodes, n.uuid = u ∧ n.parent_uuid = none := by
  induction nodes with
  | nil => simp [fsckInit]
  | cons n rest ih =>
    intro u hu
    cases hp : n.parent_uuid with
    | some p =>
      simp only [fsckInit, FsckReachabilityRecord.from_node, hp, Option.map_some'] at hu
      obtain ⟨n2, hn2, he⟩ := ih u hu
      exact ⟨n2, List.mem_cons_of_mem n hn2, he⟩
    | none =>
      simp only [fsckInit, FsckReachabilityRecord.from_node, hp, Option.map_none'] at hu
      rcases Finset.mem_insert.mp hu with rfl | hu
      · exact ⟨n, List.mem_cons_self n rest, rfl, hp⟩
      · obtain ⟨n2, hn2, he⟩ := ih u hu
        exact ⟨n2, List.mem_cons_of_mem n hn2, he⟩

theorem fsckInit_seeds (nodes : List BackupNode) :
    ∀ n ∈ nodes, n.parent_uuid = none → n.uuid ∈ (fsckInit nodes).1 := by
  induction nodes with
  | nil => simp
  | cons n0 rest ih =>
    intro n hn hp
    rcases List.mem_cons.mp hn with rfl | hn
    · simp [fsckInit, FsckReachabilityRecord.from_node, hp]
    · cases hp0 : n0.parent_uuid with
      | some p =>
        simp only [fsckInit, FsckReachabilityRecord.from_node, hp0, Option.map_some']
        exact ih n hn hp
      | none =>
        simp only [fsckInit, FsckReachabilityRecord.from_node, hp0, Option.map_none']
        exact Finset.mem_insert_of_mem (ih n hn hp)

theorem fsckInit_edges (nodes : List BackupNode) :
    ∀ r ∈ (fsckInit nodes).2, EdgeOf nodes r := by
  induction nodes with
  | nil => simp [fsckInit]
  | cons n rest ih =>
    intro r hr
    have hlift : EdgeOf rest r → EdgeOf (n :: rest) r := by
      rintro ⟨m, hm, he⟩
      exact ⟨m, List.mem_cons_of_mem n hm, he⟩
    cases hp : n.parent_uuid with
    | none =>
      simp only [fsckInit, FsckReachabilityRecord.from_node, hp, Option.map_none'] at hr
      exact hlift (ih r hr)
    | some p =>
      simp only [fsckInit, FsckReachabilityRecord.from_node, hp, Option.map_some',
        List.mem_cons] at hr
      rcases hr with rfl | hr
      · exact ⟨n, List.mem_cons_self n rest, rfl, hp⟩
      · exact hlift (ih r hr)

theorem fsckInit_covered (nodes : List BackupNode) :
    ∀ n ∈ nodes, ∀ p : Uuid, n.parent_uuid = some p →
      ∃ r ∈ (fsckInit nodes).2,
        r.uuid = n.uuid ∧ r.parent_uuid = p ∧ r.is_reachable = false := by
  induction nodes with
  | nil => simp
  | cons n0 rest ih =>
    intro n hn p hp
    rcases List.mem_cons.mp hn with rfl | hn
    · simp only [fsckInit, FsckReachabilityRecord.from_node, hp, Option.map_some']
      exact ⟨⟨false, n.uuid, p⟩, List.mem_cons_self _ _, rfl, rfl, rfl⟩
    · cases hp0 : n0.parent_uuid with
      | some p0 =>
        simp only [fsckInit, FsckReachabilityRecord.from_node, hp0, Option.map_some']
        obtain ⟨r, hr, hprops⟩ := ih n hn p hp
        exact ⟨r, List.mem_cons_of_mem _ hr, hprops⟩
      | none =>
        simp only [fsckInit, FsckReachabilityRecord.from_node, hp0, Option.map_none']
        exact ih n hn p hp

theorem fsckInit_map_sublist (nodes : List BackupNode) :
    ((fsckInit nodes).2.map (·.uuid)).Sublist (nodes.map (·.uuid)) := by
  induction nodes with
  | nil => simp [fsckInit]
  | cons n rest ih =>
    cases hp : n.parent_uuid with
    | some p =>
      simp only [fsckInit, FsckReachabilityRecord.from_node, hp, Option.map_some',
        List.map_cons]
      exact ih.cons₂ n.uuid
    | none =>
      simp only [fsckInit, FsckReachabilityRecord.from_node, hp, Option.map_none',
        List.map_cons]
      exact ih.cons n.uuid

theorem fsckInit_invariant (nodes : List BackupNode)
    (hnd : (nodes.map (·.uuid)).Nodup) :
    FsckInvariant nodes (fsckInit nodes).1 (fsckInit nodes).2 := by
  refine ⟨fsckInit_edges nodes, ?_, ?_, ?_, ?_, fsckInit_seeds nodes, ?_⟩
  · intro r hr hmark
    rw [fsckInit_records_unmarked nodes r hr] at hmark
    exact absurd hmark (by simp)
  · intro u hu
    obtain ⟨n, hn, he, hp⟩ := fsckInit_root_mem nodes u hu
    exact he ▸ RootReach.root n hn hp
  · intro r hr _ hmem
    obtain ⟨nf, hnf, henf, hpf⟩ := fsckInit_root_mem nodes r.uuid hmem
    obtain ⟨ni, hni, heni, hpi⟩ := fsckInit_edges nodes r hr
    have heq : nf = ni :=
      List.inj_on_of_nodup_map hnd hnf hni (henf.trans heni.symm)
    rw [heq, hpi] at hpf
    exact Option.noConfusion hpf
  · exact List.Nodup.sublist (fsckInit_map_sublist nodes) hnd
  · intro n hn p hp
    obtain ⟨r, hr, h1, h2, h3⟩ := fsckInit_covered nodes n hn p hp
    exact Or.inl ⟨r, hr, h1, h2, h3⟩

/-! # The find_orphans fixpoint: invariant preservation and the loop -/

theorem fsckPass_invariant {nodes : List BackupNode} (root : Finset Uuid)
    (records : List FsckReachabilityRecord)
    (hinv : FsckInvariant nodes root records) :
    FsckInvariant nodes (fsckPass root records).root_reachable
      (fsckPass root records).records := by
  obtain ⟨hedges, hmarked, hsound, hunmarked, hnodup, hseeds, hcov⟩ := hinv
  refine ⟨fsckPass_edges root records hedges,
    fsckPass_marked_in root records hmarked,
    fsckPass_sound root records hsound hedges,
    fsckPass_unmarked_not_in root records hnodup hunmarked,
    by rw [fsckPass_map_uuid]; exact hnodup,
    fun n hn hp => fsckPass_root_subset root records (hseeds n hn hp), ?_⟩
  intro n hn p hp
  rcases hcov n hn p hp with ⟨r, hr, h1, h2, h3⟩ | hmem
  · rcases fsckPass_tracked root records r hr h3 with ⟨r', hr', e1, e2, e3⟩ | hmem2
    · exact Or.inl ⟨r', hr', e1.trans h1, e2.trans h2, e3⟩
    · exact Or.inr (h1 ▸ hmem2)
  · exact Or.inr (fsckPass_root_subset root records hmem)

theorem fsckCompact_invariant {nodes : List BackupNode} (root : Finset Uuid)
    (records : List FsckReachabilityRecord)
    (hinv : FsckInvariant nodes root records) :
    FsckInvariant nodes root (records.filter (fun r => !r.is_reachable)) := by
  obtain ⟨hedges, hmarked, hsound, hunmarked, hnodup, hseeds, hcov⟩ := hinv
  have hsub : ∀ r ∈ records.filter (fun r => !r.is_reachable), r ∈ records :=
    fun r hr => List.mem_of_mem_filter hr
  refine ⟨fun r hr => hedges r (hsub r hr),
    fun r hr hm => hmarked r (hsub r hr) hm,
    hsound,
    fun r hr hu => hunmarked r (hsub r hr) hu,
    List.Nodup.sublist ((List.filter_sublist records).map (·.uuid)) hnodup,
    hseeds, ?_⟩
  intro n hn p hp
  rcases hcov n hn p hp with ⟨r, hr, h1, h2, h3⟩ | hmem
  · refine Or.inl ⟨r, ?_, h1, h2, h3⟩
    rw [List.mem_filter]
    exact ⟨hr, by simp [h3]⟩
  · exact Or.inr hmem

theorem find_orphans_loop_spec {nodes : List BackupNode} :
    ∀ (fuel : Nat) (root : Finset Uuid) (records : List FsckReachabilityRecord),
      FsckInvariant nodes root records → recUnmarked records < fuel →
      FsckInvariant nodes (find_orphans_loop fuel root records).1
        (find_orphans_loop fuel root records).2 ∧
      (∀ r ∈ (find_orphans_loop fuel root records).2, r.is_reachable = false →
        r.parent_uuid ∉ (find_orphans_loop fuel root records).1) := by
  intro fuel
  induction fuel with
  | zero =>
    intro root records _ hlt
    omega
  | succ fuel ih =>
    intro root records hinv hlt
    have hinv1 := fsckPass_invariant root records hinv
    have hinv2 : FsckInvariant nodes (fsckPass root records).root_reachable
        (if (fsckPass root records).total_scanned * 3 ≤
            4 * (fsckPass root records).reachables_found
         then (fsckPass root records).records.filter (fun r => !r.is_reachable)
         else (fsckPass root records).records) := by
      split
      · exact fsckCompact_invariant _ _ hinv1
      · exact hinv1
    have hcount : recUnmarked
        (if (fsckPass root records).total_scanned * 3 ≤
            4 * (fsckPass root records).reachables_found
         then (fsckPass root records).records.filter (fun r => !r.is_reachable)
         else (fsckPass root records).records) =
        recUnmarked (fsckPass root records).records := by
      split
      · exact recUnmarked_filter _
      · rfl
    by_cases hch : (fsckPass root records).changed
    · have hlt2 := fsckPass_changed_lt root records hch
      simp only [find_orphans_loop, hch, if_true]
      exact ih (fsckPass root records).root_reachable _ hinv2 (by omega)
    · obtain ⟨ha, hb, hc⟩ := fsckPass_not_changed root records
        (Bool.not_eq_true _ ▸ hch)
      simp only [find_orphans_loop, hch, Bool.false_eq_true, if_false]
      refine ⟨hinv2, ?_⟩
      intro r hr hun
      have hr2 : r ∈ (fsckPass root records).records := by
        revert hr
        split
        · exact fun hr => List.mem_of_mem_filter hr
        · exact fun hr => hr
      rw [hb] at hr2
      rw [ha]
      exact hc r hr2 hun

theorem rootreach_mem_of_exit {nodes : List BackupNode} {root : Finset Uuid}
    {records : List FsckReachabilityRecord}
    (hinv : FsckInvariant nodes root records)
    (hexit : ∀ r ∈ records, r.is_reachable = false → r.parent_uuid ∉ root) :
    ∀ u : Uuid, RootReach nodes u → u ∈ root := by
  intro u hu
  induction hu with
  | root n hn hp => exact hinv.2.2.2.2.2.1 n hn hp
  | step n p hn hp _ ihp =>
    rcases hinv.2.2.2.2.2.2 n hn p hp with ⟨r, hr2, _, h2, h3⟩ | hmem
    · exact absurd (h2.symm ▸ ihp) (hexit r hr2 h3)
    · exact hmem

theorem RootReach_perm {l l' : List BackupNode} (h : l.Perm l') :
    ∀ u : Uuid, RootReach l u → RootReach l' u := by
  intro u hu
  induction hu with
  | root n hn hp => exact RootReach.root n (h.mem_iff.mp hn) hp
  | step n p hn hp _ ih => exact RootReach.step n p (h.mem_iff.mp hn) hp ih

theorem find_orphans_spec (nodes : List BackupNode)
    (hnd : (nodes.map (·.uuid)).Nodup) :
    ∀ u : Uuid, u ∈ Repository.find_orphans nodes ↔
      (∃ n ∈ nodes, n.uuid = u) ∧ ¬ RootReach nodes u := by
  obtain ⟨hfinv, hexit⟩ := @find_orphans_loop_spec nodes
    ((fsckInit nodes).2.length + 1) (fsckInit nodes).1 (fsckInit nodes).2
    (fsckInit_invariant nodes hnd)
    (by
      have hle : recUnmarked (fsckInit nodes).2 ≤ (fsckInit nodes).2.length :=
        List.length_filter_le _ _
      omega)
  have hmem_iff : ∀ u : Uuid, u ∈ Repository.find_orphans nodes ↔
      ∃ r ∈ (find_orphans_loop ((fsckInit nodes).2.length + 1)
        (fsckInit nodes).1 (fsckInit nodes).2).2,
        r.is_reachable = false ∧ r.uuid = u := by
    intro u
    simp [Repository.find_orphans, List.mem_filter, and_assoc]
  intro u
  rw [hmem_iff u]
  constructor
  · rintro ⟨r, hr, hun, rfl⟩
    obtain ⟨n, hn, he, -⟩ := hfinv.1 r hr
    refine ⟨⟨n, hn, he⟩, ?_⟩
    intro hreach
    exact hfinv.2.2.2.1 r hr hun (rootreach_mem_of_exit hfinv hexit r.uuid hreach)
  · rintro ⟨⟨n, hn, rfl⟩, hnr⟩
    cases hp : n.parent_uuid with
    | none => exact absurd (RootReach.root n hn hp) hnr
    | some p =>
      rcases hfinv.2.2.2.2.2.2 n hn p hp with ⟨r, hr, h1, h2, h3⟩ | hmem
      · exact ⟨r, hr, h3, h1⟩
      · exact absurd (hfinv.2.2.1 n.uuid hmem) hnr

/-- C4 counterexample: on a node list in which a full (parent-less) node
and an incremental node share the same uuid, find_orphans returns that
uuid even though it belongs to a node with parent_uuid none, so the
claimed properties fail without a distinctness assumption. -/
theorem find_orphans_duplicate_uuid_counterexample :
    (exFullNode 1).parent_uuid = none ∧ exFullNode 1 ∈ exDupNodes ∧
    (exFullNode 1).uuid ∈ Repository.find_orphans exDupNodes := by
  refine ⟨rfl, by decide, by decide⟩

/-- C4 amended: for every node list with pairwise distinct node uuids,
find_orphans returns exactly the set of uuids of nodes not reachable
from any parent-less root through the parent_uuid edges (so in
particular the 75 percent compaction of the pending record list never
changes the result); a node with parent_uuid none is never in the
returned set; and the returned set is the same for every permutation of
the node list. -/
theorem find_orphans_amended (nodes : List BackupNode)
    (hnd : (nodes.map (·.uuid)).Nodup) :
    (∀ u : Uuid, u ∈ Repository.find_orphans nodes ↔
      (∃ n ∈ nodes, n.uuid = u) ∧ ¬ RootReach nodes u) ∧
    (∀ n ∈ nodes, n.parent_uuid = none → n.uuid ∉ Repository.find_orphans nodes) ∧
    (∀ nodes' : List BackupNode, nodes.Perm nodes' →
      Repository.find_orphans nodes = Repository.find_orphans nodes') := by
  refine ⟨find_orphans_spec nodes hnd, ?_, ?_⟩
  · intro n hn hp hmem
    exact ((find_orphans_spec nodes hnd n.uuid).mp hmem).2 (RootReach.root n hn hp)
  · intro nodes' hperm
    have hnd' : (nodes'.map (·.uuid)).Nodup := ((hperm.map (·.uuid)).nodup_iff).mp hnd
    apply Finset.ext
    intro u
    rw [find_orphans_spec nodes hnd u, find_orphans_spec nodes' hnd' u]
    constructor
    · rintro ⟨⟨n, hn, he⟩, hnr⟩
      exact ⟨⟨n, hperm.mem_iff.mp hn, he⟩,
        fun hr => hnr (RootReach_perm hperm.symm u hr)⟩
    · rintro ⟨⟨n, hn, he⟩, hnr⟩
      exact ⟨⟨n, hperm.mem_iff.mpr hn, he⟩,
        fun hr => hnr (RootReach_perm hperm u hr)⟩

/-- C4 witness: on the scenario-5 node list with distinct uuids, the
parent-less node with uuid of ones is not an orphan. -/
theorem find_orphans_amended_witness :
    ((exScenarioNodes.map (·.uuid)).Nodup) ∧
    exFullNode 1 ∈ exScenarioNodes ∧ (exFullNode 1).parent_uuid = none ∧
    (exFullNode 1).uuid ∉ Repository.find_orphans exScenarioNodes :=
  ⟨by decide, by decide, rfl,
    (find_orphans_amended exScenarioNodes (by decide)).2.1 (exFullNode 1)
      (by decide) rfl⟩

end BtrfsBackup
